import Mathlib

/-!
Shallow embedding of the sol-sniper-bot momentum strategy engine
(src/core/momentumStrategy.ts, src/utils/mcap.ts, src/ml/gbmPredictor.ts).

JS numbers are modelled as exact rationals; `undefined`-able values as
`Option`; JS truthiness of a numeric (resp. string) value is `x ≠ 0`
(resp. `s ≠ ""`), captured by `qTruthy` / `sTruthy`.  The JS `Map`s of the
engine become association lists with `alookup` / `aset` / `aerase`.
Wall-clock time (`Date.now()`) is an explicit parameter of each handler.
Asynchronous completions (risk-assessment promise resolution/rejection,
dev-exit probe, no-buy timer) are modelled as explicit events delivered to
the single-threaded engine, exactly as the source resumes them on the
event loop.
-/

namespace Sniper

/-- Truthiness of an optional JS number: defined and non-zero. -/
def qTruthy (o : Option ℚ) : Bool :=
  match o with
  | none => false
  | some x => x != 0

/-- Truthiness of an optional JS string: defined and non-empty. -/
def sTruthy (o : Option String) : Bool :=
  match o with
  | none => false
  | some s => s != ""

/-- Lowercasing used by the same-ticker filter (String.prototype.toLowerCase). -/
def lowerStr (s : String) : String := s.map Char.toLower

/-- percentChange from src/utils/mcap.ts: (to - from) / from. -/
def percentChange (a b : ℚ) : ℚ := (b - a) / a

/-- The JS sentinel Number.MAX_VALUE used to initialise lowestPrice,
equal to (2^53 - 1) * 2^971, written as an explicit numeral. -/
def NUMBER_MAX_VALUE : ℚ := 179769313486231570814527423731704356798070567525844996598917476803157260780028538760589558632766878171540458953514382464234321326889464182768467546703537516986049910576551282076245490090389328944075868508455133942304583236903222948165808559332123348274797826204144723168738177180919299881250404026184124858368

/-- Association-list lookup, modelling JS Map.get. -/
def alookup {α : Type} (m : List (String × α)) (k : String) : Option α :=
  match m with
  | [] => none
  | p :: rest => if p.1 = k then some p.2 else alookup rest k

/-- Association-list deletion, modelling JS Map.delete. -/
def aerase {α : Type} (m : List (String × α)) (k : String) : List (String × α) :=
  m.filter (fun p => p.1 ≠ k)

/-- Association-list insertion/replacement, modelling JS Map.set
(iteration order is never observed by the engine). -/
def aset {α : Type} (m : List (String × α)) (k : String) (v : α) : List (String × α) :=
  (k, v) :: aerase m k

inductive Action where
  | BUY
  | SELL
deriving DecidableEq, Repr

inductive Reason where
  | TP
  | SL
deriving DecidableEq, Repr

inductive Side where
  | buy
  | sell
deriving DecidableEq, Repr

/-- TradeSignal from momentumStrategy.ts. -/
structure TradeSignal where
  mint : String
  action : Action
  reason : Option Reason := none
  symbol : Option String := none
  price : Option ℚ := none
  time : Option ℚ := none
deriving DecidableEq, Repr

/-- One entry of TokenState.trades: {ts, sol, wallet} (ts in milliseconds). -/
structure TradeRec where
  ts : ℚ
  sol : ℚ
  wallet : String
deriving DecidableEq, Repr

/-- One entry of TokenState.wallets: {addr, ts}. -/
structure WalletRec where
  addr : String
  ts : ℚ
deriving DecidableEq, Repr

/-- TokenState from momentumStrategy.ts (the setTimeout handle becomes a
Boolean flag; its firing is the noBuyTimeout event). -/
structure TokenState where
  noBuyTimer : Bool := false
  entryFeatures : Option (List ℚ) := none
  liquidity : ℚ := 0
  volumeSol : ℚ := 0
  highestPrice : ℚ := 0
  lowestPrice : ℚ := 0
  entryPrice : Option ℚ := none
  entrySol : Option ℚ := none
  peakSinceEntry : Option ℚ := none
  peakLiquidity : Option ℚ := none
  isExceptional : Bool := false
  trades : List TradeRec := []
  wallets : List WalletRec := []
  emaShort : Option ℚ := none
  emaLong : Option ℚ := none
  atr : Option ℚ := none
  lastPrice : Option ℚ := none
  hasBought : Bool := false
  createdAt : ℚ := 0
  initialTokens : Option ℚ := none
  transferFeeBps : Option ℚ := none
  isBundler : Option Bool := none
  riskChecked : Bool := false
  devWallet : Option String := none
  devSold : Bool := false
  devFirstToken : Bool := false
  symbol : Option String := none
  devSoldSol : Option ℚ := none
  nextDevCheck : Option ℚ := none
deriving DecidableEq, Repr

/-- Recognised configuration keys (config.yaml); `none` = key absent, the
engine applies its `??` default at each use site. -/
structure Config where
  skip_dev_same_ticker : Bool := false
  debug_filters : Bool := false
  token_max_age : Option ℚ := none
  min_initial_mcap : Option ℚ := none
  max_initial_liquidity_sol : Option ℚ := none
  no_trade_timeout_sec : Option ℚ := none
  enable_tax_bundler_filter : Option Bool := none
  max_transfer_fee_bps : Option ℚ := none
  allow_bundler : Bool := false
  min_runtime_mcap_sol : Option ℚ := none
  tps_window_ms : Option ℚ := none
  ema_short_ms : Option ℚ := none
  ema_long_ms : Option ℚ := none
  atr_window_sec : Option ℚ := none
  min_liquidity_sol : Option ℚ := none
  min_volume_sol : Option ℚ := none
  min_tps : Option ℚ := none
  min_unique_wallets : Option ℚ := none
  max_avg_sol_per_tx : Option ℚ := none
  exceptional_momentum_pct : Option ℚ := none
  trade_size_sol : Option ℚ := none
  dev_blacklist_sec : Option ℚ := none
  require_dev_sold : Option Bool := none
  skip_dev_first_token : Option Bool := none
  rug_liquidity_drop_pct : Option ℚ := none
  migrate_fill_pct : Option ℚ := none
  take_profit : Option ℚ := none
  base_trail_dd : Option ℚ := none
  tps_trail_scale : Option ℚ := none
  atr_mult : Option ℚ := none
  disable_ema_tps_gain_pct : Option ℚ := none
  exit_tps : Option ℚ := none
  pure_ml : Bool := false
  lgbm_enabled : Bool := false
  lgbm_threshold_buy : Option ℚ := none
  buy_threshold : Option ℚ := none
  lgbm_threshold_sell : Option ℚ := none
  sell_threshold : Option ℚ := none

/-- The strategy object after construction.  The GBM predictors are the
probability functions `feat ↦ p` obtained from the loaded models (the
real scorer is modelled separately as GbmPredictor.predict); `mathLog`
stands for Math.log in the feature vector — the engine's control flow
never inspects feature values except through the predictor parameters. -/
structure Strat where
  config : Config
  gbmBuy : Option (List ℚ → ℚ) := none
  gbmSell : Option (List ℚ → ℚ) := none
  pureML : Bool := false
  buyThreshold : ℚ := 1 / 2
  sellThreshold : ℚ := 1 / 2
  mathLog : ℚ → ℚ := fun _ => 0

/-- Constructor wiring (momentumStrategy.ts constructor): models are only
loaded, thresholds only read, and pure_ml only honoured when
lgbm_enabled is set; `buyModel`/`sellModel` are the models found on disk
(none when the file is absent). -/
def mkStrat (config : Config) (buyModel sellModel : Option (List ℚ → ℚ))
    (mlog : ℚ → ℚ) : Strat :=
  if config.lgbm_enabled then
    { config := config
      gbmBuy := buyModel
      gbmSell := sellModel
      pureML := config.pure_ml
      buyThreshold := ((config.lgbm_threshold_buy.orElse fun _ => config.buy_threshold).getD (1 / 2))
      sellThreshold := ((config.lgbm_threshold_sell.orElse fun _ => config.sell_threshold).getD (1 / 2))
      mathLog := mlog }
  else
    { config := config, mathLog := mlog }

/-- Engine-level mutable state of MomentumStrategy. -/
structure Eng where
  profitSol : ℚ := 0
  investedSol : ℚ := 0
  totalInvestedSol : ℚ := 0
  states : List (String × TokenState) := []
  devTokenCount : List (String × ℕ) := []
  devLastTicker : List (String × String) := []
  devBlacklist : List (String × ℚ) := []
deriving DecidableEq, Repr

/-- The freshly constructed engine. -/
def mkEng : Eng := {}

/-- stopTracking: delete the state (scanner unsubscription is external). -/
def stopTracking (id : String) (eng : Eng) : Eng :=
  { eng with states := aerase eng.states id }

/-- settlePosition: on a SELL, realise PnL when entryPrice and entrySol are
both truthy; returns the updated engine and the pnl$ emissions. -/
def settlePosition (st : TokenState) (exitPrice : ℚ) (eng : Eng) : Eng × List ℚ :=
  if qTruthy st.entryPrice && qTruthy st.entrySol then
    let e := st.entryPrice.getD 0
    let s := st.entrySol.getD 0
    let pnlSol := s * (exitPrice - e) / e
    ({ eng with
        profitSol := eng.profitSol + pnlSol
        investedSol := max 0 (eng.investedSol - s) },
      [eng.profitSol + pnlSol])
  else (eng, [])

/-- PoolEvent from scanner.ts. -/
structure PoolEvent where
  mint : String
  createdAt : ℚ
  initialMcap : ℚ
  symbol : Option String := none
  devWallet : Option String := none

/-- The same-ticker admission filter decision (onPool lines 138-148):
true when the event is dropped because the dev repeats their previous
ticker. -/
def sameTickerSkip (S : Strat) (eng : Eng) (e : PoolEvent) : Bool :=
  S.config.skip_dev_same_ticker && sTruthy e.devWallet && sTruthy e.symbol &&
    (match alookup eng.devLastTicker (e.devWallet.getD "") with
     | none => false
     | some last =>
       sTruthy (some (lowerStr last)) && lowerStr last == lowerStr (e.symbol.getD ""))

/-- onPool: pool-event admission.  The asynchronous risk assessment spawned
at the end is modelled by the riskOk / riskFail events.  The same-ticker
filter updates the ticker history in both of its branches, and drops the
event exactly when sameTickerSkip holds (sameTickerSkip is false whenever
the filter is off or dev/symbol are not truthy). -/
def onPool (S : Strat) (now : ℚ) (e : PoolEvent) (eng : Eng) : Eng :=
  let engT : Eng :=
    if S.config.skip_dev_same_ticker && sTruthy e.devWallet && sTruthy e.symbol then
      { eng with devLastTicker := aset eng.devLastTicker (e.devWallet.getD "") (lowerStr (e.symbol.getD "")) }
    else eng
  if sameTickerSkip S eng e then engT
  else
    let eng := engT
    if now - e.createdAt > S.config.token_max_age.getD 600 then eng
    else if e.initialMcap < S.config.min_initial_mcap.getD 0 then eng
    else if (match S.config.max_initial_liquidity_sol with
             | none => false
             | some m => e.initialMcap > m) then eng
    else
      let id := e.mint
      if (alookup eng.states id).isSome then eng
      else
        let devStep : Bool × Eng :=
          if sTruthy e.devWallet then
            let dw := e.devWallet.getD ""
            let prev := (alookup eng.devTokenCount dw).getD 0
            (prev = 0, { eng with devTokenCount := aset eng.devTokenCount dw (prev + 1) })
          else (false, eng)
        let devFirst := devStep.1
        let eng := devStep.2
        let stateObj : TokenState :=
          { liquidity := e.initialMcap
            volumeSol := 0
            highestPrice := 0
            lowestPrice := NUMBER_MAX_VALUE
            peakLiquidity := some e.initialMcap
            trades := []
            wallets := []
            hasBought := false
            isExceptional := false
            createdAt := now
            devFirstToken := devFirst
            symbol := e.symbol
            devWallet := e.devWallet
            devSold := false
            riskChecked := false
            noBuyTimer := true }
        if S.config.enable_tax_bundler_filter = some false then
          { eng with states := aset eng.states id { stateObj with riskChecked := true } }
        else
          { eng with states := aset eng.states id stateObj }

/-- Resolution of the assessTokenRisk promise (onPool .then handler):
record fee/bundler, mark riskChecked, untrack on fee or bundler block. -/
def onRiskOk (S : Strat) (id : String) (feeBps : Option ℚ) (bundler : Bool) (eng : Eng) : Eng :=
  match alookup eng.states id with
  | none => eng
  | some st =>
    let st := match feeBps with
      | some f => { st with transferFeeBps := some f }
      | none => st
    let st := { st with riskChecked := true, isBundler := some bundler }
    let maxBps := S.config.max_transfer_fee_bps.getD 0
    let allowBundler := S.config.allow_bundler
    let isFeeBlock := match feeBps with
      | some f => f > maxBps
      | none => false
    let isBundleBlock := bundler && !allowBundler
    if isFeeBlock || isBundleBlock then
      stopTracking id { eng with states := aset eng.states id st }
    else
      { eng with states := aset eng.states id st }

/-- Rejection of the assessTokenRisk promise (onPool .catch handler):
fail-open, just mark riskChecked. -/
def onRiskFail (id : String) (eng : Eng) : Eng :=
  match alookup eng.states id with
  | none => eng
  | some st => { eng with states := aset eng.states id { st with riskChecked := true } }

/-- Positive completion of the hasDevExited probe (.then with exited = true). -/
def onDevExited (id : String) (eng : Eng) : Eng :=
  match alookup eng.states id with
  | none => eng
  | some st => { eng with states := aset eng.states id { st with devSold := true } }

/-- Firing of the no-buy timer scheduled at admission. -/
def onNoBuyTimeout (id : String) (eng : Eng) : Eng :=
  match alookup eng.states id with
  | none => eng
  | some st => if !st.hasBought then stopTracking id eng else eng

/-- Position opening (momentumStrategy.ts lines 348-362 and 453-467); the
heuristic path additionally sets isExceptional. -/
def openPosition (S : Strat) (now : ℚ) (mint : String) (price : ℚ)
    (feat : List ℚ) (exceptional : Bool) (st : TokenState) (eng : Eng) :
    TokenState × Eng × List TradeSignal :=
  let entrySol := S.config.trade_size_sol.getD (1 / 2)
  let st2 := { st with
    entryPrice := some price
    entrySol := some entrySol
    peakSinceEntry := some price
    noBuyTimer := false
    hasBought := true
    entryFeatures := some feat
    isExceptional := exceptional || st.isExceptional }
  let bl := if sTruthy st.devWallet then
      aset eng.devBlacklist (st.devWallet.getD "") (now + S.config.dev_blacklist_sec.getD 3600)
    else eng.devBlacklist
  let eng2 := { eng with
    investedSol := eng.investedSol + entrySol
    totalInvestedSol := eng.totalInvestedSol + entrySol
    devBlacklist := bl
    states := aset eng.states mint st2 }
  (st2, eng2, [{ mint := mint, action := Action.BUY, symbol := st.symbol,
                 price := some price, time := some now }])

/-- The SELL/settle/untrack triple shared by every exit path. -/
def sellExit (mint : String) (price now : ℚ) (reason : Reason)
    (st : TokenState) (eng : Eng) : Eng × List TradeSignal × List ℚ :=
  let r := settlePosition st price eng
  (stopTracking mint r.1,
   [{ mint := mint, action := Action.SELL, reason := some reason, symbol := st.symbol,
      price := some price, time := some now }],
   r.2)

/-- Dev-blacklist gate of the heuristic entry (lines 433-439). -/
def devBlacklisted (now : ℚ) (st : TokenState) (eng : Eng) : Bool :=
  sTruthy st.devWallet &&
    (match alookup eng.devBlacklist (st.devWallet.getD "") with
     | none => false
     | some e => (e != 0) && decide (e > now))

/-- Heuristic entry block (lines 420-472); entered when !hasBought and not
pure_ml; the block always ends the price handler. -/
def heuristicEntry (S : Strat) (now : ℚ) (mint : String) (price tps : ℚ)
    (uniqueWallets : ℕ) (avgSol : ℚ) (feat : List ℚ)
    (st : TokenState) (eng : Eng) : Eng × List TradeSignal × List ℚ :=
  let ageSec := now - st.createdAt
  if decide (ageSec > S.config.token_max_age.getD 600) then (stopTracking mint eng, [], [])
  else if decide (st.liquidity < S.config.min_liquidity_sol.getD 0) then (eng, [], [])
  else if decide (st.volumeSol < S.config.min_volume_sol.getD 0) then (eng, [], [])
  else if devBlacklisted now st eng then (eng, [], [])
  else
    let minTps := S.config.min_tps.getD 5
    if decide (tps < minTps) then (eng, [], [])
    else if decide ((uniqueWallets : ℚ) < S.config.min_unique_wallets.getD 0) then (eng, [], [])
    else if decide (avgSol > S.config.max_avg_sol_per_tx.getD 2) then (eng, [], [])
    else
      let exceptionalPct := S.config.exceptional_momentum_pct.getD 2
      let rise := percentChange st.lowestPrice price
      if decide (rise ≥ exceptionalPct) then
        let r := openPosition S now mint price feat true st eng
        (r.2.1, r.2.2, [])
      else (eng, [], [])

/-- EMA-cross condition of the adaptive exit (line 534). -/
def emaCrossDown (st : TokenState) : Bool :=
  match st.emaShort, st.emaLong with
  | some a, some b => decide (a < b)
  | _, _ => false

/-- Peak-since-entry update of the sell logic (lines 492-494). -/
def peakUpdate (price : ℚ) (st : TokenState) : TokenState :=
  if decide (price > st.peakSinceEntry.getD 0) then { st with peakSinceEntry := some price } else st

/-- Exceptional-momentum flag update of the sell logic (lines 497-502). -/
def excUpdate (S : Strat) (price : ℚ) (st : TokenState) : TokenState :=
  let exceptionalPct := S.config.exceptional_momentum_pct.getD 2
  let riseLowNow := percentChange st.lowestPrice price
  if !st.isExceptional && decide (riseLowNow ≥ exceptionalPct)
  then { st with isExceptional := true } else st

/-- The exit cascade of the sell logic (lines 504-577), applied to the
already-updated state: hard take-profit, EMA-cross and TPS-collapse exits,
and the combined ATR / percent trailing stop. -/
def adaptiveExitCore (S : Strat) (now : ℚ) (mint : String) (price tps : ℚ)
    (st : TokenState) (eng : Eng) : Eng × List TradeSignal × List ℚ :=
  let entry := st.entryPrice.getD 0
  let pnl := percentChange entry price
  if (match S.config.take_profit with
      | some tpLevel => decide (pnl ≥ tpLevel)
      | none => false) then
    sellExit mint price now Reason.TP st eng
  else
    let minTpsCfg := S.config.min_tps.getD 5
    let baseTrail := S.config.base_trail_dd.getD (1 / 5)
    let scale := S.config.tps_trail_scale.getD (1 / 25)
    let extraTrail := min (3 / 10) (max 0 ((tps / minTpsCfg - 1) * scale))
    let gainPct := if qTruthy st.peakSinceEntry then st.peakSinceEntry.getD 0 / entry - 1 else 0
    let gainTrail := min (1 / 2) (1 / 10 + gainPct * (1 / 10))
    let dynTrail := baseTrail + extraTrail + gainTrail + (if st.isExceptional then 1 / 10 else 0)
    let atrMultExit := S.config.atr_mult.getD 3
    let absTrail := if qTruthy st.atr then st.atr.getD 0 * atrMultExit else 0
    let allowedDrop := if qTruthy st.peakSinceEntry
                       then max absTrail (st.peakSinceEntry.getD 0 * dynTrail) else 0
    let gainSafe := S.config.disable_ema_tps_gain_pct.getD (3 / 10)
    if decide (gainPct < gainSafe) && emaCrossDown st then
      sellExit mint price now Reason.SL st eng
    else
      let exitTps := S.config.exit_tps.getD (max 1 (minTpsCfg / 2))
      if decide (gainPct < gainSafe) && decide (tps < exitTps) then
        sellExit mint price now Reason.SL st eng
      else if qTruthy st.peakSinceEntry && decide (price ≤ st.peakSinceEntry.getD 0 - allowedDrop) then
        sellExit mint price now Reason.SL st eng
      else (eng, [], [])

/-- Sell logic (lines 489-577): pure-ML / missing-entry guards, peak and
exceptional-momentum updates, then the exit cascade. -/
def adaptiveExit (S : Strat) (now : ℚ) (mint : String) (price tps : ℚ)
    (st : TokenState) (eng : Eng) : Eng × List TradeSignal × List ℚ :=
  if S.pureML then (eng, [], [])
  else if !qTruthy st.entryPrice then (eng, [], [])
  else
    let st := peakUpdate price st
    let st := excUpdate S price st
    let eng := { eng with states := aset eng.states mint st }
    adaptiveExitCore S now mint price tps st eng

/-- Extrema update of the price handler (lines 402-404). -/
def extremaUpdate (price : ℚ) (st : TokenState) : TokenState :=
  let st := if decide (price > st.highestPrice) then { st with highestPrice := price } else st
  if decide (price < st.lowestPrice) then { st with lowestPrice := price } else st

/-- Price-event stages after the (possible) ML buy: rug detection, extrema
update, ML sell, heuristic entry, migration fill, adaptive exit
(lines 390-577). -/
def postBuyStages (S : Strat) (now : ℚ) (mint : String) (price tps : ℚ)
    (uniqueWallets : ℕ) (avgSol : ℚ) (tokensCurve : Option ℚ)
    (feat : List ℚ) (st : TokenState) (eng : Eng) : Eng × List TradeSignal × List ℚ :=
  let rugDropPct := S.config.rug_liquidity_drop_pct.getD (2 / 5)
  if st.hasBought && qTruthy st.peakLiquidity &&
      decide (st.liquidity < st.peakLiquidity.getD 0 * (1 - rugDropPct)) then
    sellExit mint price now Reason.SL st eng
  else
    let st := extremaUpdate price st
    let eng := { eng with states := aset eng.states mint st }
    let mlSellFire : Bool :=
      st.hasBought && (match S.gbmSell with
        | some f => decide (f feat ≥ S.sellThreshold)
        | none => false)
    if mlSellFire then
      sellExit mint price now Reason.TP st eng
    else if !st.hasBought && !S.pureML then
      heuristicEntry S now mint price tps uniqueWallets avgSol feat st eng
    else
      let migFire : Bool :=
        qTruthy st.initialTokens && (match tokensCurve with
          | some c => decide ((1 - c / st.initialTokens.getD 0) ≥ S.config.migrate_fill_pct.getD (97 / 100))
          | none => false)
      if migFire then
        sellExit mint price now Reason.TP st eng
      else
        adaptiveExit S now mint price tps st eng

/-- Price-event stages after the pre-entry gates: ML buy (lines 343-364),
then the post-buy stages, with the BUY signal prepended to whatever they
emit. -/
def afterGates (S : Strat) (now : ℚ) (mint : String) (price tps : ℚ)
    (uniqueWallets : ℕ) (avgSol : ℚ) (tokensCurve : Option ℚ)
    (feat : List ℚ) (st : TokenState) (eng : Eng) : Eng × List TradeSignal × List ℚ :=
  let mlB : TokenState × Eng × List TradeSignal :=
    match S.gbmBuy with
    | some f =>
      if !st.hasBought && decide (f feat ≥ S.buyThreshold) then
        openPosition S now mint price feat false st eng
      else (st, eng, [])
    | none => (st, eng, [])
  let r := postBuyStages S now mint price tps uniqueWallets avgSol tokensCurve feat mlB.1 mlB.2.1
  (r.1, mlB.2.2 ++ r.2.1, r.2.2)

/-- Rolling-window updates of the price handler (lines 254-282): cumulative
volume, trade push, dev-sell detection and probe scheduling (the probe
itself is asynchronous, delivered as onDevExited), wallet-window prune and
push, trade-window prune.  ts is the wall clock in milliseconds. -/
def updateRolling (S : Strat) (ts : ℚ) (volumeSol : Option ℚ)
    (wallet : Option String) (side : Option Side) (st : TokenState) : TokenState :=
  let windowMs : ℚ := S.config.tps_window_ms.getD 4000
  let st1 : TokenState := match volumeSol with
    | some v => { st with volumeSol := st.volumeSol + v }
    | none => st
  let st2 : TokenState :=
    { st1 with trades := st1.trades ++ ([{ ts := ts, sol := volumeSol.getD 0, wallet := wallet.getD "" }] : List TradeRec) }
  let st3 : TokenState :=
    if sTruthy st2.devWallet && wallet == st2.devWallet && side == some Side.sell
    then { st2 with nextDevCheck := some ts } else st2
  let st4 : TokenState :=
    if !st3.devSold && sTruthy st3.devWallet && decide (st3.nextDevCheck.getD 0 ≤ ts)
    then { st3 with nextDevCheck := some (ts + 15000) } else st3
  let st5 : TokenState := { st4 with wallets :=
    (st4.wallets.filter (fun w => decide (ts - w.ts ≤ windowMs))) ++
      (if sTruthy wallet then ([{ addr := wallet.getD "", ts := ts }] : List WalletRec) else []) }
  { st5 with trades := st5.trades.filter (fun tr => decide (ts - tr.ts ≤ windowMs)) }

/-- EMA and ATR update (lines 289-302).  tradeCount is at least 1 here
because a trade was just appended, so the JS guard
(windowMs / tradeCount || 1) is modelled totally by dtEff. -/
def updateIndicators (S : Strat) (price : ℚ) (tradeCount : ℕ) (st : TokenState) : TokenState :=
  let windowMs : ℚ := S.config.tps_window_ms.getD 4000
  let g : ℚ := windowMs / (tradeCount : ℚ)
  let dtEff : ℚ := if g = 0 then 1 else g
  let alphaShort : ℚ := 2 / (S.config.ema_short_ms.getD 4000 / dtEff + 1)
  let alphaLong : ℚ := 2 / (S.config.ema_long_ms.getD 12000 / dtEff + 1)
  let st1 : TokenState := { st with emaShort := some (match st.emaShort with
      | none => price
      | some e => price * alphaShort + e * (1 - alphaShort)) }
  let st2 : TokenState := { st1 with emaLong := some (match st1.emaLong with
      | none => price
      | some e => price * alphaLong + e * (1 - alphaLong)) }
  let st3 : TokenState := match st2.lastPrice with
    | some lp =>
      let tr : ℚ := |price - lp|
      let alphaAtr : ℚ := 2 / (S.config.atr_window_sec.getD 20 + 1)
      { st2 with atr := some (match st2.atr with
          | none => tr
          | some a => tr * alphaAtr + a * (1 - alphaAtr)) }
    | none => st2
  { st3 with lastPrice := some price }

/-- The contractual 10-entry feature vector (lines 304-324). -/
def featVec (S : Strat) (now price tps : ℚ) (uniqueWallets : ℕ) (st : TokenState) : List ℚ :=
  let riseFromLow : ℚ := if decide (st.lowestPrice ≠ 0) then price / st.lowestPrice - 1 else 0
  let riseFromEntry : ℚ := if qTruthy st.entryPrice then price / st.entryPrice.getD 0 - 1 else 0
  let emaGap : ℚ := if st.emaShort.isSome && st.emaLong.isSome && decide (price > 0)
    then (st.emaShort.getD 0 - st.emaLong.getD 0) / price else 0
  let atrRatio : ℚ := if qTruthy st.atr && decide (price ≠ 0) then st.atr.getD 0 / price else 0
  let tokenAgeMin : ℚ := if decide (st.createdAt ≠ 0) then (now - st.createdAt) / 60 else 0
  let drawdown : ℚ := if qTruthy st.peakSinceEntry then st.peakSinceEntry.getD 0 / price - 1 else 0
  [S.mathLog (price + 1 / 1000000000000), S.mathLog (st.liquidity + 1),
    tps / 10, riseFromLow, (uniqueWallets : ℚ) / 10, emaGap, atrRatio,
    tokenAgeMin / 60, drawdown, riseFromEntry]

/-- Rolling-window, dev-probe, EMA/ATR and feature-vector portion of the
price handler, followed by the pre-entry gates (lines 254-341). -/
def onPriceCore (S : Strat) (now : ℚ) (mint : String) (price : ℚ)
    (volumeSol : Option ℚ) (wallet : Option String) (side : Option Side)
    (tokensCurve : Option ℚ) (st : TokenState) (eng : Eng) : Eng × List TradeSignal × List ℚ :=
  let windowMs : ℚ := S.config.tps_window_ms.getD 4000
  let st : TokenState := updateRolling S (now * 1000) volumeSol wallet side st
  let tradeCount : ℕ := st.trades.length
  let tps : ℚ := (tradeCount : ℚ) / (windowMs / 1000)
  let windowVolume : ℚ := (st.trades.map (fun tr => tr.sol)).sum
  let uniqueWallets : ℕ := ((st.wallets.map (fun w => w.addr)).eraseDups).length
  let avgSol : ℚ := if tradeCount ≠ 0 then windowVolume / (tradeCount : ℚ) else 0
  let st : TokenState := updateIndicators S price tradeCount st
  let feat : List ℚ := featVec S now price tps uniqueWallets st
  let eng : Eng := { eng with states := aset eng.states mint st }
  if !st.riskChecked then (eng, [], [])
  else
    let skipFirst := S.config.skip_dev_first_token != some false
    if skipFirst && st.devFirstToken then (stopTracking mint eng, [], [])
    else
      let requireDevSold := S.config.require_dev_sold != some false
      if requireDevSold && !st.devSold then (eng, [], [])
      else afterGates S now mint price tps uniqueWallets avgSol tokensCurve feat st eng

/-- onPrice: the full price-event handler (lines 228-578). -/
def onPrice (S : Strat) (now : ℚ) (mint : String) (price : ℚ)
    (volumeSol liquidity : Option ℚ) (wallet : Option String)
    (side : Option Side) (tokensCurve : Option ℚ) (eng : Eng) : Eng × List TradeSignal × List ℚ :=
  match alookup eng.states mint with
  | none => (eng, [], [])
  | some st0 =>
    let st := match tokensCurve with
      | some c => if st0.initialTokens.isNone && decide (0 < c)
                  then { st0 with initialTokens := some c } else st0
      | none => st0
    match liquidity with
    | some lq =>
      if decide (lq < S.config.min_runtime_mcap_sol.getD 30) then
        (stopTracking mint eng, [], [])
      else
        let st := { st with
          liquidity := lq
          peakLiquidity := if !qTruthy st.peakLiquidity || decide (lq > st.peakLiquidity.getD 0)
                           then some lq else st.peakLiquidity }
        onPriceCore S now mint price volumeSol wallet side tokensCurve st eng
    | none => onPriceCore S now mint price volumeSol wallet side tokensCurve st eng

/-- Events delivered to the single-threaded engine: the two input streams
plus the asynchronous completions it schedules. -/
inductive Event where
  | pool (now : ℚ) (e : PoolEvent)
  | price (now : ℚ) (mint : String) (p : ℚ) (volumeSol liquidity : Option ℚ)
      (wallet : Option String) (side : Option Side) (tokensCurve : Option ℚ)
  | riskOk (id : String) (feeBps : Option ℚ) (bundler : Bool)
  | riskFail (id : String)
  | devExited (id : String)
  | noBuyTimeout (id : String)

/-- One engine transition with its emitted signals and pnl$ values. -/
def step (S : Strat) (ev : Event) (eng : Eng) : Eng × List TradeSignal × List ℚ :=
  match ev with
  | Event.pool now e => (onPool S now e eng, [], [])
  | Event.price now mint p volumeSol liquidity wallet side tokensCurve =>
    onPrice S now mint p volumeSol liquidity wallet side tokensCurve eng
  | Event.riskOk id feeBps bundler => (onRiskOk S id feeBps bundler eng, [], [])
  | Event.riskFail id => (onRiskFail id eng, [], [])
  | Event.devExited id => (onDevExited id eng, [], [])
  | Event.noBuyTimeout id => (onNoBuyTimeout id eng, [], [])

/-- Run a sequence of events, concatenating the emitted signal and pnl
streams. -/
def run (S : Strat) (evs : List Event) (eng : Eng) : Eng × List TradeSignal × List ℚ :=
  match evs with
  | [] => (eng, [], [])
  | ev :: rest =>
    let r := step S ev eng
    let r2 := run S rest r.1
    (r2.1, r.2.1 ++ r2.2.1, r.2.2 ++ r2.2.2)

/-- Number of BUY signals for a mint in a signal stream. -/
def buyCount (sigs : List TradeSignal) (m : String) : ℕ :=
  sigs.countP (fun s => decide (s.mint = m ∧ s.action = Action.BUY))

/-- Number of SELL signals for a mint in a signal stream. -/
def sellCount (sigs : List TradeSignal) (m : String) : ℕ :=
  sigs.countP (fun s => decide (s.mint = m ∧ s.action = Action.SELL))

/-- Number of pool events for a mint in an event sequence. -/
def poolCount (evs : List Event) (m : String) : ℕ :=
  evs.countP (fun ev => match ev with
    | Event.pool _ e => decide (e.mint = m)
    | _ => false)

/-- A node of the LightGBM dump (gbmPredictor.ts TreeNode): a leaf carrying
leaf_value, or an internal split carrying split_feature, threshold and the
two children. -/
inductive TreeNode where
  | leaf (leaf_value : ℚ)
  | node (split_feature : ℕ) (threshold : ℚ) (left_child right_child : TreeNode)

/-- scoreTree: descend using feats[split_feature] <= threshold → left else
right; a missing feature value defaults to 0 (feats[idx] ?? 0). -/
def scoreTree (n : TreeNode) (feats : List ℚ) : ℚ :=
  match n with
  | TreeNode.leaf v => v
  | TreeNode.node fIdx thr l r =>
    let fVal := feats.getD fIdx 0
    if decide (fVal ≤ thr) then scoreTree l feats else scoreTree r feats

/-- The loaded booster: init score and the tree_structure list. -/
structure GbmPredictor where
  initScore : ℚ
  trees : List TreeNode

/-- Constructor from the JSON dump fields: init_score defaults to 0 when
absent (Number(model.init_score ?? 0)). -/
def mkGbmPredictor (init_score : Option ℚ) (trees : List TreeNode) : GbmPredictor :=
  { initScore := init_score.getD 0, trees := trees }

/-- Logistic function 1/(1+exp(-x)). -/
noncomputable def sigmoid (x : ℝ) : ℝ := 1 / (1 + Real.exp (-x))

/-- predict: accumulate the per-tree scores onto init_score exactly as the
source loop does and return the sigmoid probability. -/
noncomputable def GbmPredictor.predict (m : GbmPredictor) (feats : List ℚ) : ℝ :=
  sigmoid ((m.trees.foldl (fun score t => score + scoreTree t feats) m.initScore : ℚ) : ℝ)

/-- Raw ensemble score written as init_score plus the sum of the reached
leaf values (the specification-side reading of the predict loop). -/
def rawScore (m : GbmPredictor) (feats : List ℚ) : ℚ :=
  m.initScore + (m.trees.map (fun t => scoreTree t feats)).sum

lemma aerase_cons {α : Type} (p : String × α) (rest : List (String × α)) (k : String) :
    aerase (p :: rest) k = if p.1 = k then aerase rest k else p :: aerase rest k := by
  by_cases hp : p.1 = k <;> simp [aerase, hp]

lemma alookup_aerase_ne {α : Type} (m : List (String × α)) (k k' : String)
    (h : k' ≠ k) : alookup (aerase m k) k' = alookup m k' := by
  induction m with
  | nil => rfl
  | cons p rest ih =>
    rw [aerase_cons]
    by_cases hp : p.1 = k
    · have hne : ¬p.1 = k' := fun hc => h (hc ▸ hp)
      rw [if_pos hp, ih]
      simp [alookup, hne]
    · rw [if_neg hp]
      by_cases hpk : p.1 = k'
      · simp [alookup, hpk]
      · simp [alookup, hpk, ih]

lemma alookup_aerase_self {α : Type} (m : List (String × α)) (k : String) :
    alookup (aerase m k) k = none := by
  induction m with
  | nil => rfl
  | cons p rest ih =>
    rw [aerase_cons]
    by_cases hp : p.1 = k
    · rw [if_pos hp]
      exact ih
    · rw [if_neg hp]
      simp [alookup, hp, ih]

lemma alookup_aset_self {α : Type} (m : List (String × α)) (k : String) (v : α) :
    alookup (aset m k v) k = some v := by
  simp [aset, alookup]

lemma alookup_aset_ne {α : Type} (m : List (String × α)) (k k' : String) (v : α)
    (h : k' ≠ k) : alookup (aset m k v) k' = alookup m k' := by
  have hk : ¬k = k' := fun hc => h hc.symm
  simp [aset, alookup, hk, alookup_aerase_ne m k k' h]

lemma foldl_add_score (f : TreeNode → ℚ) :
    ∀ (l : List TreeNode) (a : ℚ), l.foldl (fun s t => s + f t) a = a + (l.map f).sum := by
  intro l
  induction l with
  | nil => intro a; simp
  | cons h t ih =>
    intro a
    simp [ih]
    ring

/-- C6: GbmPredictor.predict equals the sigmoid of init_score plus the sum
over all trees of the leaf_value reached by descending each tree going left
iff feats[split_feature] <= threshold with missing feature values treated
as 0 (that descent is scoreTree, summed by rawScore); in particular an
ensemble with init_score 0 and a single one-leaf tree of value v predicts
sigmoid v on every feature vector. -/
theorem C6_gbm_predict_sigma :
    (∀ (m : GbmPredictor) (feats : List ℚ),
      m.predict feats = sigmoid ((rawScore m feats : ℚ) : ℝ)) ∧
    (∀ (v : ℚ) (feats : List ℚ),
      GbmPredictor.predict { initScore := 0, trees := [TreeNode.leaf v] } feats
        = sigmoid ((v : ℚ) : ℝ)) := by
  constructor
  · intro m feats
    unfold GbmPredictor.predict rawScore
    rw [foldl_add_score]
  · intro v feats
    unfold GbmPredictor.predict
    norm_num [scoreTree]

/-- C3: a pool event that passes the same-ticker, age and initial-mcap
admission filters for a mint that is not yet tracked creates a TokenState
whose createdAt is the current wall clock, liquidity is the event's
initialMcap, highestPrice is 0, lowestPrice is the +infinity sentinel
Number.MAX_VALUE, and hasBought is false. -/
theorem C3_onPool_creates_state (S : Strat) (eng : Eng) (now : ℚ) (e : PoolEvent)
    (hticker : sameTickerSkip S eng e = false)
    (hage : now - e.createdAt ≤ S.config.token_max_age.getD 600)
    (hmin : S.config.min_initial_mcap.getD 0 ≤ e.initialMcap)
    (hmax : ∀ m, S.config.max_initial_liquidity_sol = some m → e.initialMcap ≤ m)
    (hnew : alookup eng.states e.mint = none) :
    ∃ st, alookup (onPool S now e eng).states e.mint = some st ∧
      st.createdAt = now ∧ st.liquidity = e.initialMcap ∧
      st.highestPrice = 0 ∧ st.lowestPrice = NUMBER_MAX_VALUE ∧
      st.hasBought = false := by
  have h2 : ¬(now - e.createdAt > S.config.token_max_age.getD 600) := not_lt.mpr hage
  have h3 : ¬(e.initialMcap < S.config.min_initial_mcap.getD 0) := not_lt.mpr hmin
  have h4 : (match S.config.max_initial_liquidity_sol with
             | none => false
             | some m => decide (e.initialMcap > m)) = false := by
    cases hopt : S.config.max_initial_liquidity_sol with
    | none => rfl
    | some m =>
      simp only [decide_eq_false_iff_not]
      exact not_lt.mpr (hmax m hopt)
  unfold onPool
  by_cases hb : (S.config.skip_dev_same_ticker && sTruthy e.devWallet && sTruthy e.symbol) = true
  · simp only [hb, if_true, hticker, Bool.false_eq_true, if_false, h2, h3]
    simp only [h4, Bool.false_eq_true, if_false, hnew, Option.isSome_none]
    by_cases hr : S.config.enable_tax_bundler_filter = some false
    · simp only [hr, if_true]
      by_cases hdw : sTruthy e.devWallet = true
      · simp only [hdw, if_true]
        exact ⟨_, alookup_aset_self _ _ _, rfl, rfl, rfl, rfl, rfl⟩
      · simp only [Bool.not_eq_true] at hdw
        simp only [hdw, Bool.false_eq_true, if_false]
        exact ⟨_, alookup_aset_self _ _ _, rfl, rfl, rfl, rfl, rfl⟩
    · simp only [hr, if_false]
      by_cases hdw : sTruthy e.devWallet = true
      · simp only [hdw, if_true]
        exact ⟨_, alookup_aset_self _ _ _, rfl, rfl, rfl, rfl, rfl⟩
      · simp only [Bool.not_eq_true] at hdw
        simp only [hdw, Bool.false_eq_true, if_false]
        exact ⟨_, alookup_aset_self _ _ _, rfl, rfl, rfl, rfl, rfl⟩
  · simp only [Bool.not_eq_true] at hb
    simp only [hb, hticker, Bool.false_eq_true, if_false, h2, h3]
    simp only [h4, Bool.false_eq_true, if_false, hnew, Option.isSome_none]
    by_cases hr : S.config.enable_tax_bundler_filter = some false
    · simp only [hr, if_true]
      by_cases hdw : sTruthy e.devWallet = true
      · simp only [hdw, if_true]
        exact ⟨_, alookup_aset_self _ _ _, rfl, rfl, rfl, rfl, rfl⟩
      · simp only [Bool.not_eq_true] at hdw
        simp only [hdw, Bool.false_eq_true, if_false]
        exact ⟨_, alookup_aset_self _ _ _, rfl, rfl, rfl, rfl, rfl⟩
    · simp only [hr, if_false]
      by_cases hdw : sTruthy e.devWallet = true
      · simp only [hdw, if_true]
        exact ⟨_, alookup_aset_self _ _ _, rfl, rfl, rfl, rfl, rfl⟩
      · simp only [Bool.not_eq_true] at hdw
        simp only [hdw, Bool.false_eq_true, if_false]
        exact ⟨_, alookup_aset_self _ _ _, rfl, rfl, rfl, rfl, rfl⟩

/-- C7: when the risk filter is enabled and the asynchronous risk
assessment spawned at admission fails for a still-tracked token, the catch
handler marks the token riskChecked = true while transferFeeBps and
isBundler keep their unset defaults, and the token stays tracked
(fail-open); riskChecked = true is exactly the condition under which later
price events pass the risk gate of onPriceCore. -/
theorem C7_risk_failure_fail_open (S : Strat) (eng : Eng) (now : ℚ) (e : PoolEvent)
    (hfilter : ¬S.config.enable_tax_bundler_filter = some false)
    (hticker : sameTickerSkip S eng e = false)
    (hage : now - e.createdAt ≤ S.config.token_max_age.getD 600)
    (hmin : S.config.min_initial_mcap.getD 0 ≤ e.initialMcap)
    (hmax : ∀ m, S.config.max_initial_liquidity_sol = some m → e.initialMcap ≤ m)
    (hnew : alookup eng.states e.mint = none) :
    ∃ st, alookup (onRiskFail e.mint (onPool S now e eng)).states e.mint = some st ∧
      st.riskChecked = true ∧ st.transferFeeBps = none ∧ st.isBundler = none ∧
      st.hasBought = false := by
  have h2 : ¬(now - e.createdAt > S.config.token_max_age.getD 600) := not_lt.mpr hage
  have h3 : ¬(e.initialMcap < S.config.min_initial_mcap.getD 0) := not_lt.mpr hmin
  have h4 : (match S.config.max_initial_liquidity_sol with
             | none => false
             | some m => decide (e.initialMcap > m)) = false := by
    cases hopt : S.config.max_initial_liquidity_sol with
    | none => rfl
    | some m =>
      simp only [decide_eq_false_iff_not]
      exact not_lt.mpr (hmax m hopt)
  unfold onPool
  by_cases hb : (S.config.skip_dev_same_ticker && sTruthy e.devWallet && sTruthy e.symbol) = true
  · simp only [hb, if_true, hticker, Bool.false_eq_true, if_false, h2, h3]
    simp only [h4, Bool.false_eq_true, if_false, hnew, Option.isSome_none, hfilter]
    by_cases hdw : sTruthy e.devWallet = true
    · simp only [hdw, if_true]
      unfold onRiskFail
      rw [alookup_aset_self]
      exact ⟨_, alookup_aset_self _ _ _, rfl, rfl, rfl, rfl⟩
    · simp only [Bool.not_eq_true] at hdw
      simp only [hdw, Bool.false_eq_true, if_false]
      unfold onRiskFail
      rw [alookup_aset_self]
      exact ⟨_, alookup_aset_self _ _ _, rfl, rfl, rfl, rfl⟩
  · simp only [Bool.not_eq_true] at hb
    simp only [hb, hticker, Bool.false_eq_true, if_false, h2, h3]
    simp only [h4, Bool.false_eq_true, if_false, hnew, Option.isSome_none, hfilter]
    by_cases hdw : sTruthy e.devWallet = true
    · simp only [hdw, if_true]
      unfold onRiskFail
      rw [alookup_aset_self]
      exact ⟨_, alookup_aset_self _ _ _, rfl, rfl, rfl, rfl⟩
    · simp only [Bool.not_eq_true] at hdw
      simp only [hdw, Bool.false_eq_true, if_false]
      unfold onRiskFail
      rw [alookup_aset_self]
      exact ⟨_, alookup_aset_self _ _ _, rfl, rfl, rfl, rfl⟩

/-- C8: a price event whose liquidity is below min_runtime_mcap_sol on a
tracked token with an open position removes the token and returns
immediately: no signal is emitted, no settlement happens, and profitSol
and investedSol are untouched. -/
theorem C8_runtime_liquidity_floor (S : Strat) (eng : Eng) (now : ℚ)
    (mint : String) (price L : ℚ) (volumeSol : Option ℚ) (wallet : Option String)
    (side : Option Side) (tokensCurve : Option ℚ) (st : TokenState)
    (hst : alookup eng.states mint = some st)
    (hbought : st.hasBought = true)
    (hL : L < S.config.min_runtime_mcap_sol.getD 30) :
    onPrice S now mint price volumeSol (some L) wallet side tokensCurve eng
      = ({ eng with states := aerase eng.states mint }, [], []) ∧
    alookup (onPrice S now mint price volumeSol (some L) wallet side tokensCurve eng).1.states mint
      = none ∧
    (onPrice S now mint price volumeSol (some L) wallet side tokensCurve eng).1.profitSol
      = eng.profitSol ∧
    (onPrice S now mint price volumeSol (some L) wallet side tokensCurve eng).1.investedSol
      = eng.investedSol := by
  have hmain : onPrice S now mint price volumeSol (some L) wallet side tokensCurve eng
      = ({ eng with states := aerase eng.states mint }, [], []) := by
    unfold onPrice
    rw [hst]
    cases tokensCurve <;> simp [hL, stopTracking]
  refine ⟨hmain, ?_, ?_, ?_⟩ <;> rw [hmain]
  exact alookup_aerase_self _ _

/-- Concrete configuration used by the witness scenarios: risk filter
disabled, dev-sold gate disabled, tiny TPS floor, hard take-profit at 0. -/
def cfg0 : Config :=
  { enable_tax_bundler_filter := some false
    require_dev_sold := some false
    min_tps := some (1 / 4)
    take_profit := some 0 }

/-- Strategy over cfg0 without ML models. -/
def strat0 : Strat := mkStrat cfg0 none none (fun _ => 0)

/-- Configuration with every key absent (risk filter enabled by default). -/
def cfg1 : Config := {}

/-- Strategy over cfg1 without ML models. -/
def strat1 : Strat := mkStrat cfg1 none none (fun _ => 0)

/-- Concrete pool event. -/
def pool0 : PoolEvent := { mint := "M", createdAt := 10, initialMcap := 100 }

/-- A bought token state written out directly (as left by a BUY at price 3
after a low of 1). -/
def stW : TokenState :=
  { hasBought := true
    liquidity := 100
    createdAt := 10
    lowestPrice := 1
    highestPrice := 3
    riskChecked := true
    entryPrice := some 3
    entrySol := some (1 / 2)
    peakSinceEntry := some 3
    peakLiquidity := some 100 }

/-- An engine tracking stW with its open position. -/
def engW : Eng := { states := [("M", stW)], investedSol := 1 / 2, totalInvestedSol := 1 / 2 }

/-- Witness for C3 at a concrete admitted pool event. -/
theorem C3_witness :
    ∃ st, alookup (onPool strat0 10 pool0 mkEng).states "M" = some st ∧
      st.createdAt = 10 ∧ st.liquidity = 100 ∧
      st.highestPrice = 0 ∧ st.lowestPrice = NUMBER_MAX_VALUE ∧
      st.hasBought = false :=
  C3_onPool_creates_state strat0 mkEng 10 pool0 rfl
    (by with_unfolding_all decide)
    (by with_unfolding_all decide)
    (by intro m hm; simp [strat0, mkStrat, cfg0] at hm)
    rfl

/-- Witness for C7 at a concrete admitted pool event with the risk filter
enabled. -/
theorem C7_witness :
    ∃ st, alookup (onRiskFail "M" (onPool strat1 10 pool0 mkEng)).states "M" = some st ∧
      st.riskChecked = true ∧ st.transferFeeBps = none ∧ st.isBundler = none ∧
      st.hasBought = false :=
  C7_risk_failure_fail_open strat1 mkEng 10 pool0
    (by simp [strat1, mkStrat, cfg1])
    rfl
    (by with_unfolding_all decide)
    (by with_unfolding_all decide)
    (by intro m hm; simp [strat1, mkStrat, cfg1] at hm)
    rfl

/-- Witness for C8: a liquidity reading of 20 (below the default floor 30)
on the bought token drops it without settlement. -/
theorem C8_witness :
    onPrice strat0 13 "M" 3 none (some 20) none none none engW
      = ({ engW with states := aerase engW.states "M" }, [], []) ∧
    alookup (onPrice strat0 13 "M" 3 none (some 20) none none none engW).1.states "M"
      = none ∧
    (onPrice strat0 13 "M" 3 none (some 20) none none none engW).1.profitSol
      = engW.profitSol ∧
    (onPrice strat0 13 "M" 3 none (some 20) none none none engW).1.investedSol
      = engW.investedSol :=
  C8_runtime_liquidity_floor strat0 engW 13 "M" 3 20 none none none none stW
    (by with_unfolding_all decide)
    rfl
    (by with_unfolding_all decide)

/-- Pure-ML configuration with the risk filter and dev gates disabled and
no model file found on disk. -/
def cfg9 : Config :=
  { lgbm_enabled := true
    pure_ml := true
    enable_tax_bundler_filter := some false
    require_dev_sold := some false }

/-- Pure-ML strategy without loaded models. -/
def strat9 : Strat := mkStrat cfg9 none none (fun _ => 0)

/-- Events reaching the migration-fill exit without any BUY: record the
initial curve of 1000000 tokens, then observe 20000 left (fill 0.98). -/
def evs9 : List Event :=
  [Event.pool 10 pool0,
   Event.price 11 "M" 2 none none none none (some 1000000),
   Event.price 12 "M" 2 none none none none (some 20000)]

set_option maxRecDepth 3000 in
/-- C9: in pure-ML mode a tracked token past the risk and dev gates with
hasBought = false whose curve fill reaches migrate_fill_pct emits a SELL
with reason TP although no BUY was ever emitted, and the accompanying
settlePosition leaves profitSol and investedSol unchanged because
entryPrice and entrySol are unset. -/
theorem C9_migration_sell_without_buy :
    buyCount (run strat9 evs9 mkEng).2.1 "M" = 0 ∧
    (run strat9 evs9 mkEng).2.1 =
      [{ mint := "M", action := Action.SELL, reason := some Reason.TP,
         price := some 2, time := some 12 }] ∧
    (run strat9 evs9 mkEng).1.profitSol = 0 ∧
    (run strat9 evs9 mkEng).1.investedSol = 0 ∧
    alookup (run strat9 evs9 mkEng).1.states "M" = none := by
  with_unfolding_all decide

/-- Configuration with ML enabled (not pure) and the risk and dev gates
disabled. -/
def cfg10 : Config :=
  { lgbm_enabled := true
    enable_tax_bundler_filter := some false
    require_dev_sold := some false }

/-- Strategy whose loaded buy model always returns probability 1. -/
def strat10 : Strat := mkStrat cfg10 (some (fun _ => 1)) none (fun _ => 0)

set_option maxRecDepth 3000 in
/-- C10: a single price event can emit both a BUY (ML entry) and a SELL
(rug detection later in the same call at the same price); the settlement
changes profitSol by exactly 0 since exit price equals entry price. -/
theorem C10_buy_and_sell_same_call :
    onPrice strat10 11 "M" 2 none (some 30) none none none
        (onPool strat10 10 pool0 mkEng)
      = ({ profitSol := 0, investedSol := 0, totalInvestedSol := 1 / 2,
           states := [], devTokenCount := [], devLastTicker := [], devBlacklist := [] },
         [{ mint := "M", action := Action.BUY, price := some 2, time := some 11 },
          { mint := "M", action := Action.SELL, reason := some Reason.SL,
            price := some 2, time := some 11 }],
         [0]) := by
  with_unfolding_all decide

/-- Events showing re-admission after a SELL: one full BUY/SELL round trip,
then a second pool event for the same mint and a second BUY. -/
def evs1 : List Event :=
  [Event.pool 10 pool0,
   Event.price 11 "M" 1 none none none none none,
   Event.price 12 "M" 3 none none none none none,
   Event.price 13 "M" 3 none none none none none,
   Event.pool 14 pool0,
   Event.price 15 "M" 1 none none none none none,
   Event.price 16 "M" 3 none none none none none]

set_option maxRecDepth 3000 in
/-- Counterexample to C1 as stated: over a sequence of onPool and onPrice
calls in which the mint is re-admitted by a second pool event after its
SELL, two BUY signals are emitted for the same mint. -/
theorem C1_counterexample_two_buys :
    buyCount (run strat0 evs1 mkEng).2.1 "M" = 2 ∧
    sellCount (run strat0 evs1 mkEng).2.1 "M" = 1 ∧
    poolCount evs1 "M" = 2 := by
  with_unfolding_all decide

/-- C4: for a tracked token that reaches the heuristic entry stage
(hasBought = false, not pure-ML), a BUY is emitted iff age is within
token_max_age, liquidity and cumulative volume meet their floors, the dev
is not currently blacklisted, tps, unique wallets and average trade size
meet their bounds, and the rise from the low price/lowestPrice - 1 reaches
exceptional_momentum_pct; on firing, the BUY carries the event price and
isExceptional is set. -/
theorem C4_heuristic_entry_iff (S : Strat) (eng : Eng) (now : ℚ)
    (mint : String) (price tps : ℚ) (uniqueWallets : ℕ) (avgSol : ℚ)
    (feat : List ℚ) (st : TokenState)
    (hlow : 0 < st.lowestPrice) :
    ((∃ sig ∈ (heuristicEntry S now mint price tps uniqueWallets avgSol feat st eng).2.1,
        sig.action = Action.BUY) ↔
      (now - st.createdAt ≤ S.config.token_max_age.getD 600 ∧
       S.config.min_liquidity_sol.getD 0 ≤ st.liquidity ∧
       S.config.min_volume_sol.getD 0 ≤ st.volumeSol ∧
       devBlacklisted now st eng = false ∧
       S.config.min_tps.getD 5 ≤ tps ∧
       S.config.min_unique_wallets.getD 0 ≤ (uniqueWallets : ℚ) ∧
       avgSol ≤ S.config.max_avg_sol_per_tx.getD 2 ∧
       S.config.exceptional_momentum_pct.getD 2 ≤ price / st.lowestPrice - 1)) ∧
    ((now - st.createdAt ≤ S.config.token_max_age.getD 600 ∧
       S.config.min_liquidity_sol.getD 0 ≤ st.liquidity ∧
       S.config.min_volume_sol.getD 0 ≤ st.volumeSol ∧
       devBlacklisted now st eng = false ∧
       S.config.min_tps.getD 5 ≤ tps ∧
       S.config.min_unique_wallets.getD 0 ≤ (uniqueWallets : ℚ) ∧
       avgSol ≤ S.config.max_avg_sol_per_tx.getD 2 ∧
       S.config.exceptional_momentum_pct.getD 2 ≤ price / st.lowestPrice - 1) →
      (heuristicEntry S now mint price tps uniqueWallets avgSol feat st eng).2.1 =
        [{ mint := mint, action := Action.BUY, symbol := st.symbol,
           price := some price, time := some now }] ∧
      ∃ st', alookup (heuristicEntry S now mint price tps uniqueWallets avgSol feat st eng).1.states mint
          = some st' ∧ st'.isExceptional = true) := by
  have h0 : st.lowestPrice ≠ 0 := ne_of_gt hlow
  have hpc : percentChange st.lowestPrice price = price / st.lowestPrice - 1 := by
    unfold percentChange
    rw [sub_div, div_self h0]
  generalize hr : heuristicEntry S now mint price tps uniqueWallets avgSol feat st eng = r
  simp only [heuristicEntry, hpc] at hr
  split_ifs at hr with h1 h2 h3 h4 h5 h6 h7 h8 <;> subst hr
  · simp only [decide_eq_true_eq] at h1
    constructor
    · simp only [List.not_mem_nil, false_and, exists_false, exists_prop, false_iff]
      intro hc
      exact absurd hc.1 (not_le.mpr h1)
    · intro hc
      exact absurd hc.1 (not_le.mpr h1)
  · simp only [decide_eq_true_eq] at h2
    constructor
    · simp only [List.not_mem_nil, false_and, exists_false, exists_prop, false_iff]
      intro hc
      exact absurd hc.2.1 (not_le.mpr h2)
    · intro hc
      exact absurd hc.2.1 (not_le.mpr h2)
  · simp only [decide_eq_true_eq] at h3
    constructor
    · simp only [List.not_mem_nil, false_and, exists_false, exists_prop, false_iff]
      intro hc
      exact absurd hc.2.2.1 (not_le.mpr h3)
    · intro hc
      exact absurd hc.2.2.1 (not_le.mpr h3)
  · constructor
    · simp only [List.not_mem_nil, false_and, exists_false, exists_prop, false_iff]
      intro hc
      rw [hc.2.2.2.1] at h4
      exact Bool.false_ne_true h4
    · intro hc
      rw [hc.2.2.2.1] at h4
      exact absurd h4 Bool.false_ne_true
  · simp only [decide_eq_true_eq] at h5
    constructor
    · simp only [List.not_mem_nil, false_and, exists_false, exists_prop, false_iff]
      intro hc
      exact absurd hc.2.2.2.2.1 (not_le.mpr h5)
    · intro hc
      exact absurd hc.2.2.2.2.1 (not_le.mpr h5)
  · simp only [decide_eq_true_eq] at h6
    constructor
    · simp only [List.not_mem_nil, false_and, exists_false, exists_prop, false_iff]
      intro hc
      exact absurd hc.2.2.2.2.2.1 (not_le.mpr h6)
    · intro hc
      exact absurd hc.2.2.2.2.2.1 (not_le.mpr h6)
  · simp only [decide_eq_true_eq] at h7
    constructor
    · simp only [List.not_mem_nil, false_and, exists_false, exists_prop, false_iff]
      intro hc
      exact absurd hc.2.2.2.2.2.2.1 (not_le.mpr h7)
    · intro hc
      exact absurd hc.2.2.2.2.2.2.1 (not_le.mpr h7)
  · -- success branch: all guards passed and the rise threshold is met
    simp only [decide_eq_true_eq, not_lt] at h1 h2 h3 h5 h6 h7
    simp only [decide_eq_true_eq] at h8
    simp only [Bool.not_eq_true] at h4
    constructor
    · refine iff_of_true ?_ ⟨h1, h2, h3, h4, h5, h6, h7, h8⟩
      refine ⟨{ mint := mint, action := Action.BUY, reason := none, symbol := st.symbol,
                price := some price, time := some now }, ?_, rfl⟩
      simp [openPosition]
    · intro _
      refine ⟨?_, ?_⟩
      · simp [openPosition]
      · simp only [openPosition, alookup_aset_self]
        exact ⟨_, rfl, rfl⟩
  · simp only [decide_eq_true_eq, not_le] at h8
    constructor
    · simp only [List.not_mem_nil, false_and, exists_false, exists_prop, false_iff]
      intro hc
      exact absurd hc.2.2.2.2.2.2.2 (not_le.mpr h8)
    · intro hc
      exact absurd hc.2.2.2.2.2.2.2 (not_le.mpr h8)

/-- A tracked, risk-checked, not-yet-bought token whose low is 1. -/
def stPre : TokenState :=
  { liquidity := 100
    createdAt := 10
    lowestPrice := 1
    highestPrice := 1
    riskChecked := true }

/-- Engine tracking stPre. -/
def engPre : Eng := { states := [("M", stPre)] }

/-- Witness for C4 at a concrete qualifying price event (price 3 from a
low of 1, a +200 percent rise). -/
theorem C4_witness :
    ((∃ sig ∈ (heuristicEntry strat0 11 "M" 3 1 0 0 [] stPre engPre).2.1,
        sig.action = Action.BUY) ↔
      (11 - stPre.createdAt ≤ strat0.config.token_max_age.getD 600 ∧
       strat0.config.min_liquidity_sol.getD 0 ≤ stPre.liquidity ∧
       strat0.config.min_volume_sol.getD 0 ≤ stPre.volumeSol ∧
       devBlacklisted 11 stPre engPre = false ∧
       strat0.config.min_tps.getD 5 ≤ 1 ∧
       strat0.config.min_unique_wallets.getD 0 ≤ ((0 : ℕ) : ℚ) ∧
       (0 : ℚ) ≤ strat0.config.max_avg_sol_per_tx.getD 2 ∧
       strat0.config.exceptional_momentum_pct.getD 2 ≤ 3 / stPre.lowestPrice - 1)) ∧
    ((11 - stPre.createdAt ≤ strat0.config.token_max_age.getD 600 ∧
       strat0.config.min_liquidity_sol.getD 0 ≤ stPre.liquidity ∧
       strat0.config.min_volume_sol.getD 0 ≤ stPre.volumeSol ∧
       devBlacklisted 11 stPre engPre = false ∧
       strat0.config.min_tps.getD 5 ≤ 1 ∧
       strat0.config.min_unique_wallets.getD 0 ≤ ((0 : ℕ) : ℚ) ∧
       (0 : ℚ) ≤ strat0.config.max_avg_sol_per_tx.getD 2 ∧
       strat0.config.exceptional_momentum_pct.getD 2 ≤ 3 / stPre.lowestPrice - 1) →
      (heuristicEntry strat0 11 "M" 3 1 0 0 [] stPre engPre).2.1 =
        [{ mint := "M", action := Action.BUY, symbol := stPre.symbol,
           price := some 3, time := some 11 }] ∧
      ∃ st', alookup (heuristicEntry strat0 11 "M" 3 1 0 0 [] stPre engPre).1.states "M"
          = some st' ∧ st'.isExceptional = true) :=
  C4_heuristic_entry_iff strat0 engPre 11 "M" 3 1 0 0 [] stPre
    (by with_unfolding_all decide)

/-- The adaptive-exit decision cascade written out in the specification's
own terms: pnl = price/entry - 1, gainPct from the updated peak,
dynTrail = base_trail_dd + clamp((tps/min_tps - 1) * tps_trail_scale, 0, 0.3)
          + min(0.5, 0.1 + gainPct * 0.1) + (0.1 if exceptional else 0),
allowedDrop = max(atr * atr_mult, peak * dynTrail); hard take-profit first,
then EMA-cross, then TPS-collapse, then the trailing drawdown. -/
def specAdaptiveSignals (mint : String) (now price tps e peak a es el : ℚ)
    (isExc : Bool) (sym : Option String) (tpCfg : Option ℚ)
    (minTps baseTrail scale atrMult gainSafe exitTps : ℚ) : List TradeSignal :=
  let pnl := price / e - 1
  let gainPct := peak / e - 1
  let extraTrail := min (3 / 10) (max 0 ((tps / minTps - 1) * scale))
  let gainTrail := min (1 / 2) (1 / 10 + gainPct * (1 / 10))
  let dynTrail := baseTrail + extraTrail + gainTrail + (if isExc then 1 / 10 else 0)
  let allowedDrop := max (a * atrMult) (peak * dynTrail)
  if (match tpCfg with
      | some tp => decide (pnl ≥ tp)
      | none => false) then
    [{ mint := mint, action := Action.SELL, reason := some Reason.TP, symbol := sym,
       price := some price, time := some now }]
  else if decide (gainPct < gainSafe) && decide (es < el) then
    [{ mint := mint, action := Action.SELL, reason := some Reason.SL, symbol := sym,
       price := some price, time := some now }]
  else if decide (gainPct < gainSafe) && decide (tps < exitTps) then
    [{ mint := mint, action := Action.SELL, reason := some Reason.SL, symbol := sym,
       price := some price, time := some now }]
  else if decide (price ≤ peak - allowedDrop) then
    [{ mint := mint, action := Action.SELL, reason := some Reason.SL, symbol := sym,
       price := some price, time := some now }]
  else []

lemma peakUpdate_eq (price p0 : ℚ) (st : TokenState) (hpeak : st.peakSinceEntry = some p0) :
    peakUpdate price st = { st with peakSinceEntry := some (max p0 price) } := by
  unfold peakUpdate
  rw [hpeak]
  rcases le_or_lt price p0 with h | h
  · have hc : ¬(price > p0) := not_lt.mpr h
    simp only [Option.getD_some, hc, decide_eq_false_iff_not, decide_eq_true_eq,
      if_neg hc, max_eq_left h]
    rw [← hpeak]
    simp
  · simp [h, max_eq_right h.le]

lemma excUpdate_noflip (S : Strat) (price : ℚ) (st : TokenState)
    (h : percentChange st.lowestPrice price < S.config.exceptional_momentum_pct.getD 2) :
    excUpdate S price st = st := by
  unfold excUpdate
  have hc : ¬(percentChange st.lowestPrice price ≥ S.config.exceptional_momentum_pct.getD 2) :=
    not_le.mpr h
  simp [hc]

lemma adaptiveExitCore_spec (S : Strat) (eng : Eng) (now : ℚ) (mint : String)
    (price tps : ℚ) (st : TokenState) (e q a es el : ℚ)
    (hentry : st.entryPrice = some e) (he : e ≠ 0)
    (hpeak : st.peakSinceEntry = some q) (hq : q ≠ 0)
    (hatr : st.atr = some a) (ha : a ≠ 0)
    (hes : st.emaShort = some es) (hel : st.emaLong = some el) :
    (adaptiveExitCore S now mint price tps st eng).2.1 =
      specAdaptiveSignals mint now price tps e q a es el st.isExceptional st.symbol
        S.config.take_profit (S.config.min_tps.getD 5) (S.config.base_trail_dd.getD (1 / 5))
        (S.config.tps_trail_scale.getD (1 / 25)) (S.config.atr_mult.getD 3)
        (S.config.disable_ema_tps_gain_pct.getD (3 / 10))
        (S.config.exit_tps.getD (max 1 (S.config.min_tps.getD 5 / 2))) := by
  have hpc : percentChange e price = price / e - 1 := by
    unfold percentChange
    rw [sub_div, div_self he]
  have hcross : emaCrossDown st = decide (es < el) := by
    unfold emaCrossDown
    rw [hes, hel]
  simp only [adaptiveExitCore, specAdaptiveSignals, hentry, hpeak, hatr, hcross,
    Option.getD_some, hpc, qTruthy, bne_iff_ne, ne_eq, hq, ha, not_false_eq_true,
    if_true, Bool.true_and, Bool.and_eq_true, decide_eq_true_eq, true_and]
  split_ifs <;> rfl

lemma sellExit_sigs (mint : String) (price now : ℚ) (reason : Reason)
    (st : TokenState) (eng : Eng) :
    (sellExit mint price now reason st eng).2.1 =
      [{ mint := mint, action := Action.SELL, reason := some reason, symbol := st.symbol,
         price := some price, time := some now }] := rfl

set_option maxHeartbeats 1000000 in
lemma adaptiveExitCore_cases (S : Strat) (eng : Eng) (now : ℚ) (mint : String)
    (price tps : ℚ) (st : TokenState) :
    adaptiveExitCore S now mint price tps st eng = (eng, [], []) ∨
    ∃ r, adaptiveExitCore S now mint price tps st eng = sellExit mint price now r st eng := by
  simp only [adaptiveExitCore]
  split_ifs <;>
    first
    | exact Or.inl rfl
    | exact Or.inr ⟨Reason.TP, rfl⟩
    | exact Or.inr ⟨Reason.SL, rfl⟩

/-- C5: for a bought token in non-pure-ML mode reaching the sell logic, the
exit decision follows the specified order: peakSinceEntry is first updated
to max(peakSinceEntry, price); then take-profit fires when configured and
pnl = price/entry - 1 reaches it; else the EMA-cross exit when
gainPct < disable_ema_tps_gain_pct and emaShort < emaLong; else the
TPS-collapse exit when gainPct < disable_ema_tps_gain_pct and
tps < exit_tps; else SELL(SL) exactly when
price <= peak - max(atr * atr_mult, peak * dynTrail) with
dynTrail = base_trail_dd + clamp((tps/min_tps - 1) * tps_trail_scale, 0, 0.3)
+ min(0.5, 0.1 + gainPct * 0.1) + (0.1 if isExceptional). -/
theorem C5_adaptive_exit_cascade (S : Strat) (eng : Eng) (now : ℚ) (mint : String)
    (price tps : ℚ) (st : TokenState) (e p0 a es el : ℚ)
    (hpml : S.pureML = false)
    (hentry : st.entryPrice = some e) (he : 0 < e)
    (hpeak : st.peakSinceEntry = some p0) (hp0 : 0 < p0)
    (hatr : st.atr = some a) (ha : a ≠ 0)
    (hes : st.emaShort = some es) (hel : st.emaLong = some el)
    (hnoflip : percentChange st.lowestPrice price < S.config.exceptional_momentum_pct.getD 2) :
    (adaptiveExit S now mint price tps st eng).2.1 =
      specAdaptiveSignals mint now price tps e (max p0 price) a es el st.isExceptional st.symbol
        S.config.take_profit (S.config.min_tps.getD 5) (S.config.base_trail_dd.getD (1 / 5))
        (S.config.tps_trail_scale.getD (1 / 25)) (S.config.atr_mult.getD 3)
        (S.config.disable_ema_tps_gain_pct.getD (3 / 10))
        (S.config.exit_tps.getD (max 1 (S.config.min_tps.getD 5 / 2))) ∧
    ((adaptiveExit S now mint price tps st eng).2.1 = [] →
      ∃ st', alookup (adaptiveExit S now mint price tps st eng).1.states mint = some st' ∧
        st'.peakSinceEntry = some (max p0 price)) := by
  have hene : e ≠ 0 := ne_of_gt he
  have hqpos : (0 : ℚ) < max p0 price := lt_max_of_lt_left hp0
  have hqne : max p0 price ≠ 0 := ne_of_gt hqpos
  have hunfold : adaptiveExit S now mint price tps st eng =
      adaptiveExitCore S now mint price tps { st with peakSinceEntry := some (max p0 price) }
        { eng with states := aset eng.states mint { st with peakSinceEntry := some (max p0 price) } } := by
    unfold adaptiveExit
    rw [hpml]
    have hqt : qTruthy st.entryPrice = true := by
      rw [hentry]
      simp [qTruthy, hene]
    rw [hqt]
    simp only [Bool.false_eq_true, if_false, Bool.not_true]
    rw [peakUpdate_eq price p0 st hpeak]
    rw [excUpdate_noflip]
    exact hnoflip
  rw [hunfold]
  constructor
  · exact adaptiveExitCore_spec S _ now mint price tps _ e (max p0 price) a es el
      hentry hene rfl hqne hatr ha hes hel
  · intro hnil
    rcases adaptiveExitCore_cases S
        { eng with states := aset eng.states mint { st with peakSinceEntry := some (max p0 price) } }
        now mint price tps { st with peakSinceEntry := some (max p0 price) } with hcase | ⟨r0, hcase⟩
    · rw [hcase]
      exact ⟨_, alookup_aset_self _ _ _, rfl⟩
    · rw [hcase, sellExit_sigs] at hnil
      exact absurd hnil (List.cons_ne_nil _ _)

/-- A bought token with EMA, ATR and peak all populated. -/
def stC5 : TokenState :=
  { liquidity := 100
    createdAt := 10
    lowestPrice := 1
    highestPrice := 3
    riskChecked := true
    hasBought := true
    entryPrice := some 3
    entrySol := some (1 / 2)
    peakSinceEntry := some 3
    peakLiquidity := some 100
    atr := some 1
    emaShort := some 2
    emaLong := some 1 }

/-- Engine tracking stC5 with its open position. -/
def engC5 : Eng := { states := [("M", stC5)], investedSol := 1 / 2, totalInvestedSol := 1 / 2 }

/-- Witness for C5 at a concrete sell-logic evaluation (price 2 after an
entry at 3 with peak 3). -/
theorem C5_witness :
    (adaptiveExit strat0 20 "M" 2 5 stC5 engC5).2.1 =
      specAdaptiveSignals "M" 20 2 5 3 (max 3 2) 1 2 1 stC5.isExceptional stC5.symbol
        strat0.config.take_profit (strat0.config.min_tps.getD 5)
        (strat0.config.base_trail_dd.getD (1 / 5))
        (strat0.config.tps_trail_scale.getD (1 / 25)) (strat0.config.atr_mult.getD 3)
        (strat0.config.disable_ema_tps_gain_pct.getD (3 / 10))
        (strat0.config.exit_tps.getD (max 1 (strat0.config.min_tps.getD 5 / 2))) ∧
    ((adaptiveExit strat0 20 "M" 2 5 stC5 engC5).2.1 = [] →
      ∃ st', alookup (adaptiveExit strat0 20 "M" 2 5 stC5 engC5).1.states "M" = some st' ∧
        st'.peakSinceEntry = some (max 3 2)) :=
  C5_adaptive_exit_cascade strat0 engC5 20 "M" 2 5 stC5 3 3 1 2 1
    rfl rfl (by with_unfolding_all decide) rfl (by with_unfolding_all decide)
    rfl (by with_unfolding_all decide) rfl rfl (by with_unfolding_all decide)

/-- Size of the open position recorded in a token state: entrySol when
entryPrice and entrySol are both truthy (the settlement guard), else 0. -/
def posSize (st : TokenState) : ℚ :=
  if qTruthy st.entryPrice && qTruthy st.entrySol then st.entrySol.getD 0 else 0

/-- Sum of open position sizes over the states map. -/
def sumPos (m : List (String × TokenState)) : ℚ :=
  (m.map (fun p => posSize p.2)).sum

/-- All recorded positions are non-negative. -/
def NN (m : List (String × TokenState)) : Prop := ∀ p ∈ m, 0 ≤ posSize p.2

/-- Engine accounting invariant: positions are non-negative and investedSol
covers the sum of open positions. -/
def Inv (eng : Eng) : Prop := NN eng.states ∧ sumPos eng.states ≤ eng.investedSol

lemma sumPos_nonneg {m : List (String × TokenState)} (h : NN m) : 0 ≤ sumPos m := by
  induction m with
  | nil => simp [sumPos]
  | cons p rest ih =>
    have h0 := h p (List.mem_cons_self p rest)
    have hr : NN rest := fun q hq => h q (List.mem_cons_of_mem p hq)
    simp only [sumPos, List.map_cons, List.sum_cons]
    have := ih hr
    simp only [sumPos] at this
    linarith

lemma NN_aerase {m : List (String × TokenState)} (k : String) (h : NN m) : NN (aerase m k) :=
  fun p hp => h p (List.mem_of_mem_filter hp)

lemma sumPos_aerase_le {m : List (String × TokenState)} (k : String) (h : NN m) :
    sumPos (aerase m k) ≤ sumPos m := by
  induction m with
  | nil => simp [aerase]
  | cons p rest ih =>
    have h0 := h p (List.mem_cons_self p rest)
    have hr : NN rest := fun q hq => h q (List.mem_cons_of_mem p hq)
    rw [aerase_cons]
    by_cases hp : p.1 = k
    · rw [if_pos hp]
      simp only [sumPos, List.map_cons, List.sum_cons]
      have := ih hr
      simp only [sumPos] at this
      linarith
    · rw [if_neg hp]
      simp only [sumPos, List.map_cons, List.sum_cons]
      have := ih hr
      simp only [sumPos] at this
      linarith

lemma sumPos_aset (m : List (String × TokenState)) (k : String) (v : TokenState) :
    sumPos (aset m k v) = posSize v + sumPos (aerase m k) := by
  simp [aset, sumPos]

lemma alookup_posSize_le {m : List (String × TokenState)} {k : String} {st : TokenState}
    (h : NN m) (hl : alookup m k = some st) :
    posSize st + sumPos (aerase m k) ≤ sumPos m := by
  induction m with
  | nil => simp [alookup] at hl
  | cons p rest ih =>
    have h0 := h p (List.mem_cons_self p rest)
    have hr : NN rest := fun q hq => h q (List.mem_cons_of_mem p hq)
    rw [aerase_cons]
    by_cases hp : p.1 = k
    · simp only [alookup, hp, if_true] at hl
      have hst := Option.some.inj hl
      subst hst
      rw [if_pos hp]
      simp only [sumPos, List.map_cons, List.sum_cons]
      have h2 := sumPos_aerase_le k hr
      simp only [sumPos] at h2
      linarith
    · simp only [alookup, hp, if_false] at hl
      rw [if_neg hp]
      simp only [sumPos, List.map_cons, List.sum_cons]
      have := ih hr hl
      simp only [sumPos] at this
      linarith

lemma alookup_posSize_le_sum {m : List (String × TokenState)} {k : String} {st : TokenState}
    (h : NN m) (hl : alookup m k = some st) : posSize st ≤ sumPos m := by
  have h1 := alookup_posSize_le h hl
  have h2 := sumPos_nonneg (NN_aerase k h)
  linarith

/-- Tracked-and-not-bought indicator for a mint. -/
def tNB (m : List (String × TokenState)) (id : String) : ℕ :=
  match alookup m id with
  | some st => if st.hasBought then 0 else 1
  | none => 0

/-- Tracked indicator for a mint. -/
def tI (m : List (String × TokenState)) (id : String) : ℕ :=
  if (alookup m id).isSome then 1 else 0

/-- Number of pool events for a mint in a single event. -/
def poolFor (ev : Event) (m : String) : ℕ :=
  match ev with
  | Event.pool _ e => if e.mint = m then 1 else 0
  | _ => 0

lemma buyCount_append (a b : List TradeSignal) (m : String) :
    buyCount (a ++ b) m = buyCount a m + buyCount b m := by
  simp [buyCount, List.countP_append]

lemma sellCount_append (a b : List TradeSignal) (m : String) :
    sellCount (a ++ b) m = sellCount a m + sellCount b m := by
  simp [sellCount, List.countP_append]

lemma buyCount_sell_sig (mint m : String) (r : Option Reason) (sym : Option String)
    (p t : Option ℚ) :
    buyCount [{ mint := mint, action := Action.SELL, reason := r, symbol := sym,
                price := p, time := t }] m = 0 := by
  simp [buyCount, List.countP_cons, List.countP_nil]

lemma sellCount_sell_sig (mint : String) (r : Option Reason) (sym : Option String)
    (p t : Option ℚ) :
    sellCount [{ mint := mint, action := Action.SELL, reason := r, symbol := sym,
                 price := p, time := t }] mint = 1 := by
  simp [sellCount, List.countP_cons, List.countP_nil]

lemma buyCount_buy_sig (mint : String) (r : Option Reason) (sym : Option String)
    (p t : Option ℚ) :
    buyCount [{ mint := mint, action := Action.BUY, reason := r, symbol := sym,
                price := p, time := t }] mint = 1 := by
  simp [buyCount, List.countP_cons, List.countP_nil]

lemma sellCount_buy_sig (mint m : String) (r : Option Reason) (sym : Option String)
    (p t : Option ℚ) :
    sellCount [{ mint := mint, action := Action.BUY, reason := r, symbol := sym,
                 price := p, time := t }] m = 0 := by
  simp [sellCount, List.countP_cons, List.countP_nil]

lemma alookup_mem {α : Type} {m : List (String × α)} {k : String} {v : α}
    (h : alookup m k = some v) : (k, v) ∈ m := by
  induction m with
  | nil => simp [alookup] at h
  | cons p rest ih =>
    by_cases hp : p.1 = k
    · simp only [alookup, hp, if_true] at h
      have := Option.some.inj h
      subst this
      subst hp
      exact List.mem_cons_self _ _
    · simp only [alookup, hp, if_false] at h
      exact List.mem_cons_of_mem p (ih h)

lemma tNB_le_one (m : List (String × TokenState)) (id : String) : tNB m id ≤ 1 := by
  unfold tNB
  cases alookup m id with
  | none => simp
  | some st =>
    dsimp only
    split_ifs <;> simp

lemma tI_le_one (m : List (String × TokenState)) (id : String) : tI m id ≤ 1 := by
  unfold tI
  split_ifs <;> simp

/-- The engine tracks, at this mint, a state indistinguishable from st for
position accounting (same open-position size and bought flag). -/
def TrackedLike (eng : Eng) (mint : String) (st : TokenState) : Prop :=
  ∃ st0, alookup eng.states mint = some st0 ∧ posSize st0 = posSize st ∧
    st0.hasBought = st.hasBought

/-- What a price-handler stage may do, relative to the tracked state st of
the mint it processes: it only touches this mint's map entry, only emits
signals for it, emits at most one BUY (none if already bought) and at most
one SELL, untracks on SELL, never resurrects an unbought entry after a BUY,
and preserves the accounting invariant. -/
def StageOK (S : Strat) (mint : String) (st : TokenState) (eng : Eng)
    (r : Eng × List TradeSignal × List ℚ) : Prop :=
  (∀ m, m ≠ mint → alookup r.1.states m = alookup eng.states m) ∧
  (∀ sig ∈ r.2.1, sig.mint = mint) ∧
  (buyCount r.2.1 mint + tNB r.1.states mint ≤ if st.hasBought then 0 else 1) ∧
  (sellCount r.2.1 mint + tI r.1.states mint ≤ 1) ∧
  (1 ≤ sellCount r.2.1 mint → alookup r.1.states mint = none) ∧
  (0 ≤ S.config.trade_size_sol.getD (1 / 2) → Inv eng → Inv r.1)

lemma Inv_aerase {eng : Eng} (mint : String) (h : Inv eng) :
    Inv { eng with states := aerase eng.states mint } := by
  refine ⟨NN_aerase mint h.1, ?_⟩
  exact le_trans (sumPos_aerase_le mint h.1) h.2

lemma Inv_aset_samePos {eng : Eng} {mint : String} {st st2 : TokenState}
    (htr : TrackedLike eng mint st) (hpos : posSize st2 = posSize st) (h : Inv eng) :
    Inv { eng with states := aset eng.states mint st2 } := by
  obtain ⟨st0, hl, hp0, _⟩ := htr
  have hmem := alookup_mem hl
  have h0 : 0 ≤ posSize st0 := h.1 _ hmem
  constructor
  · intro p hp
    rcases List.mem_cons.mp hp with hp1 | hp2
    · rw [hp1]
      simpa [hpos, ← hp0] using h0
    · exact h.1 _ (List.mem_of_mem_filter hp2)
  · have hle := alookup_posSize_le h.1 hl
    rw [sumPos_aset, hpos, ← hp0]
    calc posSize st0 + sumPos (aerase eng.states mint) ≤ sumPos eng.states := hle
    _ ≤ eng.investedSol := h.2

lemma StageOK_noop {S : Strat} {mint : String} {st : TokenState} {eng : Eng}
    (htr : TrackedLike eng mint st) : StageOK S mint st eng (eng, [], []) := by
  obtain ⟨st0, hl, _, hb⟩ := htr
  refine ⟨fun m _ => rfl, by simp, ?_, ?_, by simp [sellCount, List.countP_nil], fun _ h => h⟩
  · simp only [buyCount, List.countP_nil, Nat.zero_add, tNB, hl, hb]
    split_ifs <;> simp
  · simp only [sellCount, List.countP_nil, Nat.zero_add, tI, hl]
    simp

lemma StageOK_stop {S : Strat} {mint : String} {st : TokenState} {eng : Eng} :
    StageOK S mint st eng (stopTracking mint eng, [], []) := by
  refine ⟨?_, by simp, ?_, ?_, by simp [sellCount, List.countP_nil], fun _ h => Inv_aerase mint h⟩
  · intro m hm
    exact alookup_aerase_ne _ _ _ hm
  · simp only [buyCount, List.countP_nil, Nat.zero_add, tNB, stopTracking,
      alookup_aerase_self]
    split_ifs <;> simp
  · simp only [sellCount, List.countP_nil, Nat.zero_add, tI, stopTracking,
      alookup_aerase_self]
    simp

lemma sellExit_StageOK (S : Strat) (mint : String) (price now : ℚ) (reason : Reason)
    (st : TokenState) (eng : Eng) (htr : TrackedLike eng mint st) :
    StageOK S mint st eng (sellExit mint price now reason st eng) := by
  obtain ⟨st0, hl, hp0, _⟩ := htr
  have hstates : (sellExit mint price now reason st eng).1.states = aerase eng.states mint := by
    unfold sellExit settlePosition stopTracking
    split_ifs <;> rfl
  have hinvested : eng.investedSol ≤ (sellExit mint price now reason st eng).1.investedSol ∨
      (sellExit mint price now reason st eng).1.investedSol
        = max 0 (eng.investedSol - posSize st) := by
    unfold sellExit settlePosition posSize
    split_ifs with h
    · right
      rfl
    · left
      rfl
  refine ⟨?_, ?_, ?_, ?_, ?_, ?_⟩
  · intro m hm
    rw [hstates]
    exact alookup_aerase_ne _ _ _ hm
  · intro sig hsig
    rw [sellExit_sigs] at hsig
    rcases List.mem_singleton.mp hsig with rfl
    rfl
  · rw [sellExit_sigs, buyCount_sell_sig]
    simp only [tNB, hstates, alookup_aerase_self]
    split_ifs <;> simp
  · rw [sellExit_sigs, sellCount_sell_sig]
    simp [tI, hstates, alookup_aerase_self]
  · intro _
    rw [hstates]
    exact alookup_aerase_self _ _
  · intro _ hInv
    have hNN : NN (aerase eng.states mint) := NN_aerase mint hInv.1
    have hps : posSize st + sumPos (aerase eng.states mint) ≤ sumPos eng.states := by
      rw [← hp0]
      exact alookup_posSize_le hInv.1 hl
    rcases hinvested with hle | heq
    · refine ⟨by rw [hstates]; exact hNN, ?_⟩
      rw [hstates]
      calc sumPos (aerase eng.states mint) ≤ sumPos eng.states := sumPos_aerase_le mint hInv.1
      _ ≤ eng.investedSol := hInv.2
      _ ≤ _ := hle
    · refine ⟨by rw [hstates]; exact hNN, ?_⟩
      rw [hstates, heq]
      have : sumPos (aerase eng.states mint) ≤ eng.investedSol - posSize st := by
        have := hInv.2
        linarith
      exact le_max_of_le_right this

lemma StageOK_transfer {S : Strat} {mint : String} {st st2 : TokenState} {eng : Eng}
    {r : Eng × List TradeSignal × List ℚ}
    (htr : TrackedLike eng mint st)
    (hpos : posSize st2 = posSize st) (hhb : st2.hasBought = st.hasBought)
    (h : StageOK S mint st2 { eng with states := aset eng.states mint st2 } r) :
    StageOK S mint st eng r := by
  obtain ⟨h1, h2, h3, h4, h5, h6⟩ := h
  rw [hhb] at h3
  refine ⟨?_, h2, h3, h4, h5, ?_⟩
  · intro m hm
    rw [h1 m hm]
    exact alookup_aset_ne _ _ _ _ hm
  · intro hts hInv
    exact h6 hts (Inv_aset_samePos htr hpos hInv)

lemma peakUpdate_pres (price : ℚ) (st : TokenState) :
    posSize (peakUpdate price st) = posSize st ∧ (peakUpdate price st).hasBought = st.hasBought := by
  unfold peakUpdate
  split_ifs <;> exact ⟨rfl, rfl⟩

lemma excUpdate_pres (S : Strat) (price : ℚ) (st : TokenState) :
    posSize (excUpdate S price st) = posSize st ∧ (excUpdate S price st).hasBought = st.hasBought := by
  simp only [excUpdate]
  split_ifs <;> exact ⟨rfl, rfl⟩

lemma updateRolling_pres (S : Strat) (ts : ℚ) (v : Option ℚ) (w : Option String)
    (sd : Option Side) (st : TokenState) :
    posSize (updateRolling S ts v w sd st) = posSize st ∧
    (updateRolling S ts v w sd st).hasBought = st.hasBought := by
  cases v <;> simp only [updateRolling] <;> split_ifs <;> exact ⟨rfl, rfl⟩

lemma updateIndicators_pres (S : Strat) (price : ℚ) (n : ℕ) (st : TokenState) :
    posSize (updateIndicators S price n st) = posSize st ∧
    (updateIndicators S price n st).hasBought = st.hasBought := by
  unfold updateIndicators
  cases st.lastPrice <;> exact ⟨rfl, rfl⟩

lemma openPosition_eng (S : Strat) (now : ℚ) (mint : String) (price : ℚ)
    (feat : List ℚ) (exc : Bool) (st : TokenState) (eng : Eng) :
    (openPosition S now mint price feat exc st eng).2.1.states
      = aset eng.states mint (openPosition S now mint price feat exc st eng).1 ∧
    (openPosition S now mint price feat exc st eng).2.1.investedSol
      = eng.investedSol + S.config.trade_size_sol.getD (1 / 2) ∧
    (openPosition S now mint price feat exc st eng).1.hasBought = true ∧
    (openPosition S now mint price feat exc st eng).2.2
      = [{ mint := mint, action := Action.BUY, symbol := st.symbol,
           price := some price, time := some now }] := by
  unfold openPosition
  split_ifs <;> exact ⟨rfl, rfl, rfl, rfl⟩

lemma openPosition_posSize (S : Strat) (now : ℚ) (mint : String) (price : ℚ)
    (feat : List ℚ) (exc : Bool) (st : TokenState) (eng : Eng)
    (hts : 0 ≤ S.config.trade_size_sol.getD (1 / 2)) :
    0 ≤ posSize (openPosition S now mint price feat exc st eng).1 ∧
    posSize (openPosition S now mint price feat exc st eng).1
      ≤ S.config.trade_size_sol.getD (1 / 2) := by
  unfold openPosition posSize
  split_ifs <;> simp_all

lemma openPosition_inv (S : Strat) (now : ℚ) (mint : String) (price : ℚ)
    (feat : List ℚ) (exc : Bool) (st : TokenState) (eng : Eng)
    (hts : 0 ≤ S.config.trade_size_sol.getD (1 / 2)) (hInv : Inv eng) :
    Inv (openPosition S now mint price feat exc st eng).2.1 := by
  obtain ⟨hstates, hinv, _, _⟩ := openPosition_eng S now mint price feat exc st eng
  obtain ⟨hps0, hps1⟩ := openPosition_posSize S now mint price feat exc st eng hts
  constructor
  · rw [hstates]
    intro p hp
    rcases List.mem_cons.mp hp with hp1 | hp2
    · rw [hp1]
      exact hps0
    · exact hInv.1 _ (List.mem_of_mem_filter hp2)
  · rw [hstates, hinv, sumPos_aset]
    have h1 := sumPos_aerase_le mint hInv.1
    have h2 := hInv.2
    linarith

lemma heuristicEntry_StageOK (S : Strat) (now : ℚ) (mint : String) (price tps : ℚ)
    (uw : ℕ) (avg : ℚ) (feat : List ℚ) (st : TokenState) (eng : Eng)
    (htr : TrackedLike eng mint st) (hNB : st.hasBought = false) :
    StageOK S mint st eng (heuristicEntry S now mint price tps uw avg feat st eng) := by
  generalize hr : heuristicEntry S now mint price tps uw avg feat st eng = r
  simp only [heuristicEntry] at hr
  split_ifs at hr <;> subst hr
  · exact StageOK_stop
  · exact StageOK_noop htr
  · exact StageOK_noop htr
  · exact StageOK_noop htr
  · exact StageOK_noop htr
  · exact StageOK_noop htr
  · exact StageOK_noop htr
  · -- BUY branch
    obtain ⟨hstates, hinv, hbought, hsigs⟩ := openPosition_eng S now mint price feat true st eng
    refine ⟨?_, ?_, ?_, ?_, ?_, ?_⟩
    · intro m hm
      rw [hstates]
      exact alookup_aset_ne _ _ _ _ hm
    · intro sig hsig
      rw [hsigs] at hsig
      rcases List.mem_singleton.mp hsig with rfl
      rfl
    · rw [hsigs, buyCount_buy_sig]
      simp only [tNB, hstates, alookup_aset_self, hbought, hNB]
      simp
    · rw [hsigs, sellCount_buy_sig]
      simp [tI, hstates, alookup_aset_self]
    · rw [hsigs, sellCount_buy_sig]
      intro h
      exact absurd h (by simp)
    · intro hts hInv
      exact openPosition_inv S now mint price feat true st eng hts hInv
  · exact StageOK_noop htr

lemma adaptiveExitCore_StageOK (S : Strat) (now : ℚ) (mint : String) (price tps : ℚ)
    (st : TokenState) (eng : Eng) (htr : TrackedLike eng mint st) :
    StageOK S mint st eng (adaptiveExitCore S now mint price tps st eng) := by
  rcases adaptiveExitCore_cases S eng now mint price tps st with h | ⟨r0, h⟩
  · rw [h]
    exact StageOK_noop htr
  · rw [h]
    exact sellExit_StageOK S mint price now r0 st eng htr

lemma adaptiveExit_StageOK (S : Strat) (now : ℚ) (mint : String) (price tps : ℚ)
    (st : TokenState) (eng : Eng) (htr : TrackedLike eng mint st) :
    StageOK S mint st eng (adaptiveExit S now mint price tps st eng) := by
  unfold adaptiveExit
  split_ifs with h1 h2
  · exact StageOK_noop htr
  · exact StageOK_noop htr
  · have hpos : posSize (excUpdate S price (peakUpdate price st)) = posSize st := by
      rw [(excUpdate_pres S price _).1, (peakUpdate_pres price st).1]
    have hhb : (excUpdate S price (peakUpdate price st)).hasBought = st.hasBought := by
      rw [(excUpdate_pres S price _).2, (peakUpdate_pres price st).2]
    exact StageOK_transfer htr hpos hhb
      (adaptiveExitCore_StageOK S now mint price tps _ _
        ⟨_, alookup_aset_self _ _ _, rfl, rfl⟩)

lemma extremaUpdate_pres (price : ℚ) (st : TokenState) :
    posSize (extremaUpdate price st) = posSize st ∧
    (extremaUpdate price st).hasBought = st.hasBought := by
  simp only [extremaUpdate]
  split_ifs <;> exact ⟨rfl, rfl⟩

lemma postBuyStages_StageOK (S : Strat) (now : ℚ) (mint : String) (price tps : ℚ)
    (uw : ℕ) (avg : ℚ) (tc : Option ℚ) (feat : List ℚ) (st : TokenState) (eng : Eng)
    (htr : TrackedLike eng mint st) :
    StageOK S mint st eng (postBuyStages S now mint price tps uw avg tc feat st eng) := by
  have hpos := (extremaUpdate_pres price st).1
  have hhb := (extremaUpdate_pres price st).2
  simp only [postBuyStages]
  split_ifs with hrug hsell hheur hmig
  · exact sellExit_StageOK S mint price now Reason.SL st eng htr
  · exact StageOK_transfer htr hpos hhb
      (sellExit_StageOK S mint price now Reason.TP _ _ ⟨_, alookup_aset_self _ _ _, rfl, rfl⟩)
  · have hNB : (extremaUpdate price st).hasBought = false := by
      have := hheur
      simp only [Bool.and_eq_true, Bool.not_eq_true'] at this
      exact this.1
    exact StageOK_transfer htr hpos hhb
      (heuristicEntry_StageOK S now mint price tps uw avg feat _ _
        ⟨_, alookup_aset_self _ _ _, rfl, rfl⟩ hNB)
  · exact StageOK_transfer htr hpos hhb
      (sellExit_StageOK S mint price now Reason.TP _ _ ⟨_, alookup_aset_self _ _ _, rfl, rfl⟩)
  · exact StageOK_transfer htr hpos hhb
      (adaptiveExit_StageOK S now mint price tps _ _ ⟨_, alookup_aset_self _ _ _, rfl, rfl⟩)

lemma StageOK_prepend_buy {S : Strat} {mint : String} {st st1 : TokenState}
    {eng eng1 : Eng} {r : Eng × List TradeSignal × List ℚ} {sig : TradeSignal}
    (hb : st.hasBought = false)
    (hstates1 : eng1.states = aset eng.states mint st1)
    (hb1 : st1.hasBought = true)
    (hInv1 : 0 ≤ S.config.trade_size_sol.getD (1 / 2) → Inv eng → Inv eng1)
    (hsigmint : sig.mint = mint) (hsigact : sig.action = Action.BUY)
    (h : StageOK S mint st1 eng1 r) :
    StageOK S mint st eng (r.1, sig :: r.2.1, r.2.2) := by
  obtain ⟨h1, h2, h3, h4, h5, h6⟩ := h
  have hbc : buyCount (sig :: r.2.1) mint = 1 + buyCount r.2.1 mint := by
    simp [buyCount, List.countP_cons, hsigmint, hsigact, Nat.add_comm]
  have hsc : sellCount (sig :: r.2.1) mint = sellCount r.2.1 mint := by
    simp [sellCount, List.countP_cons, hsigact]
  refine ⟨?_, ?_, ?_, ?_, ?_, ?_⟩
  · intro m hm
    rw [h1 m hm, hstates1]
    exact alookup_aset_ne _ _ _ _ hm
  · intro s hs
    rcases List.mem_cons.mp hs with rfl | hs2
    · exact hsigmint
    · exact h2 s hs2
  · have hb3 : buyCount r.2.1 mint + tNB r.1.states mint ≤ 0 := by
      rw [hb1] at h3
      simpa using h3
    dsimp only
    rw [hbc, hb]
    simp only [Bool.false_eq_true, if_false]
    omega
  · rw [hsc]
    exact h4
  · intro hone
    rw [hsc] at hone
    exact h5 hone
  · intro hts hInv
    exact h6 hts (hInv1 hts hInv)

lemma afterGates_StageOK (S : Strat) (now : ℚ) (mint : String) (price tps : ℚ)
    (uw : ℕ) (avg : ℚ) (tc : Option ℚ) (feat : List ℚ) (st : TokenState) (eng : Eng)
    (htr : TrackedLike eng mint st) :
    StageOK S mint st eng (afterGates S now mint price tps uw avg tc feat st eng) := by
  unfold afterGates
  cases hgb : S.gbmBuy with
  | none =>
    exact postBuyStages_StageOK S now mint price tps uw avg tc feat st eng htr
  | some f =>
    dsimp only
    by_cases hfire : (!st.hasBought && decide (f feat ≥ S.buyThreshold)) = true
    · rw [if_pos hfire]
      have hb : st.hasBought = false := by
        simp only [Bool.and_eq_true, Bool.not_eq_true'] at hfire
        exact hfire.1
      obtain ⟨hstates1, _, hb1, hsigs⟩ := openPosition_eng S now mint price feat false st eng
      rw [hsigs]
      exact StageOK_prepend_buy hb hstates1 hb1
        (fun hts hInv => openPosition_inv S now mint price feat false st eng hts hInv)
        rfl rfl
        (postBuyStages_StageOK S now mint price tps uw avg tc feat _ _
          ⟨_, hstates1 ▸ alookup_aset_self _ _ _, rfl, rfl⟩)
    · rw [if_neg hfire]
      exact postBuyStages_StageOK S now mint price tps uw avg tc feat st eng htr

lemma onPriceCore_StageOK (S : Strat) (now : ℚ) (mint : String) (price : ℚ)
    (v : Option ℚ) (w : Option String) (sd : Option Side) (tc : Option ℚ)
    (st : TokenState) (eng : Eng) (htr : TrackedLike eng mint st) :
    StageOK S mint st eng (onPriceCore S now mint price v w sd tc st eng) := by
  have hpos : posSize (updateIndicators S price
      (updateRolling S (now * 1000) v w sd st).trades.length
      (updateRolling S (now * 1000) v w sd st)) = posSize st := by
    rw [(updateIndicators_pres S price _ _).1, (updateRolling_pres S (now * 1000) v w sd st).1]
  have hhb : (updateIndicators S price
      (updateRolling S (now * 1000) v w sd st).trades.length
      (updateRolling S (now * 1000) v w sd st)).hasBought = st.hasBought := by
    rw [(updateIndicators_pres S price _ _).2, (updateRolling_pres S (now * 1000) v w sd st).2]
  simp only [onPriceCore]
  split_ifs <;>
    first
    | exact StageOK_transfer htr hpos hhb (StageOK_noop ⟨_, alookup_aset_self _ _ _, rfl, rfl⟩)
    | exact StageOK_transfer htr hpos hhb StageOK_stop
    | exact StageOK_transfer htr hpos hhb
        (afterGates_StageOK S now mint price _ _ _ tc _ _ _ ⟨_, alookup_aset_self _ _ _, rfl, rfl⟩)

/-- What a whole price-event call may do, phrased against the pre-call map
indicators (no assumption that the mint is tracked). -/
def MasterOK (S : Strat) (mint : String) (eng : Eng)
    (r : Eng × List TradeSignal × List ℚ) : Prop :=
  (∀ m, m ≠ mint → alookup r.1.states m = alookup eng.states m) ∧
  (∀ sig ∈ r.2.1, sig.mint = mint) ∧
  (buyCount r.2.1 mint + tNB r.1.states mint ≤ tNB eng.states mint) ∧
  (sellCount r.2.1 mint + tI r.1.states mint ≤ tI eng.states mint) ∧
  (1 ≤ sellCount r.2.1 mint → alookup r.1.states mint = none) ∧
  (0 ≤ S.config.trade_size_sol.getD (1 / 2) → Inv eng → Inv r.1)

lemma MasterOK_refl (S : Strat) (mint : String) (eng : Eng) :
    MasterOK S mint eng (eng, [], []) := by
  refine ⟨fun m _ => rfl, by simp, ?_, ?_, ?_, fun _ h => h⟩
  · simp [buyCount, List.countP_nil]
  · simp [sellCount, List.countP_nil]
  · intro h
    simp [sellCount, List.countP_nil] at h

lemma MasterOK_stop (S : Strat) (mint : String) (eng : Eng) :
    MasterOK S mint eng (stopTracking mint eng, [], []) := by
  refine ⟨fun m hm => alookup_aerase_ne _ _ _ hm, by simp, ?_, ?_, ?_,
    fun _ h => Inv_aerase mint h⟩
  · have h0 : tNB (stopTracking mint eng).states mint = 0 := by
      simp [tNB, stopTracking, alookup_aerase_self]
    simp only [buyCount, List.countP_nil, h0]
    omega
  · have h0 : tI (stopTracking mint eng).states mint = 0 := by
      simp [tI, stopTracking, alookup_aerase_self]
    simp only [sellCount, List.countP_nil, h0]
    omega
  · intro h
    simp [sellCount, List.countP_nil] at h

lemma StageOK_master {S : Strat} {mint : String} {st : TokenState} {eng : Eng}
    {r : Eng × List TradeSignal × List ℚ}
    (htr : TrackedLike eng mint st) (h : StageOK S mint st eng r) :
    MasterOK S mint eng r := by
  obtain ⟨st0, hl, _, hb⟩ := htr
  obtain ⟨h1, h2, h3, h4, h5, h6⟩ := h
  have ht1 : tNB eng.states mint = if st.hasBought then 0 else 1 := by
    unfold tNB
    rw [hl]
    dsimp only
    rw [hb]
  have ht2 : tI eng.states mint = 1 := by
    simp [tI, hl]
  exact ⟨h1, h2, ht1 ▸ h3, ht2 ▸ h4, h5, h6⟩

lemma onPrice_master (S : Strat) (now : ℚ) (mint : String) (price : ℚ)
    (v lq : Option ℚ) (w : Option String) (sd : Option Side) (tc : Option ℚ) (eng : Eng) :
    MasterOK S mint eng (onPrice S now mint price v lq w sd tc eng) := by
  have hcore : ∀ st1 : TokenState, alookup eng.states mint = some st1 →
      ∀ st2 : TokenState, posSize st2 = posSize st1 → st2.hasBought = st1.hasBought →
      MasterOK S mint eng (onPriceCore S now mint price v w sd tc st2 eng) := by
    intro st1 hlk st2 hp hh
    exact StageOK_master ⟨st1, hlk, hp.symm, hh.symm⟩
      (onPriceCore_StageOK S now mint price v w sd tc st2 eng ⟨st1, hlk, hp.symm, hh.symm⟩)
  cases hlk : alookup eng.states mint with
  | none =>
    simp only [onPrice, hlk]
    exact MasterOK_refl S mint eng
  | some st0 =>
    simp only [onPrice, hlk]
    cases tc with
    | none =>
      cases lq with
      | none => exact hcore st0 hlk st0 rfl rfl
      | some L =>
        dsimp only
        split_ifs <;>
          first
          | exact MasterOK_stop S mint eng
          | exact hcore st0 hlk _ rfl rfl
    | some c =>
      dsimp only
      by_cases hrec : (st0.initialTokens.isNone && decide (0 < c)) = true
      · simp only [hrec, if_true]
        cases lq with
        | none => exact hcore st0 hlk _ rfl rfl
        | some L =>
          dsimp only
          split_ifs <;>
            first
            | exact MasterOK_stop S mint eng
            | exact hcore st0 hlk _ rfl rfl
      · simp only [Bool.not_eq_true] at hrec
        simp only [hrec, Bool.false_eq_true, if_false]
        cases lq with
        | none => exact hcore st0 hlk st0 rfl rfl
        | some L =>
          dsimp only
          split_ifs <;>
            first
            | exact MasterOK_stop S mint eng
            | exact hcore st0 hlk _ rfl rfl

lemma Inv_set_states {eng eng' : Eng} {mint : String} {v : TokenState}
    (hs : eng'.states = aset eng.states mint v)
    (hi : eng'.investedSol = eng.investedSol)
    (hv : posSize v = 0) (h : Inv eng) : Inv eng' := by
  constructor
  · rw [hs]
    intro p hp
    rcases List.mem_cons.mp hp with hp1 | hp2
    · rw [hp1]
      simp [hv]
    · exact h.1 _ (List.mem_of_mem_filter hp2)
  · rw [hs, hi, sumPos_aset, hv]
    have h1 := sumPos_aerase_le mint h.1
    have h2 := h.2
    linarith

lemma onPool_shape (S : Strat) (now : ℚ) (e : PoolEvent) (eng : Eng) :
    (∃ dlt, onPool S now e eng = { eng with devLastTicker := dlt }) ∨
    (∃ dlt dtc v, posSize v = 0 ∧
      onPool S now e eng = { eng with devLastTicker := dlt, devTokenCount := dtc,
                                      states := aset eng.states e.mint v }) := by
  unfold onPool
  by_cases hb : (S.config.skip_dev_same_ticker && sTruthy e.devWallet && sTruthy e.symbol) = true
  · simp only [hb, if_true]
    by_cases hsk : sameTickerSkip S eng e = true
    · simp only [hsk, if_true]
      exact Or.inl ⟨_, rfl⟩
    · simp only [Bool.not_eq_true] at hsk
      simp only [hsk, Bool.false_eq_true, if_false]
      by_cases h1 : now - e.createdAt > S.config.token_max_age.getD 600
      · simp only [h1, if_true]
        exact Or.inl ⟨_, rfl⟩
      · simp only [h1, if_false]
        by_cases h2 : e.initialMcap < S.config.min_initial_mcap.getD 0
        · simp only [h2, if_true]
          exact Or.inl ⟨_, rfl⟩
        · simp only [h2, if_false]
          by_cases h3 : (match S.config.max_initial_liquidity_sol with
                         | none => false
                         | some m => decide (e.initialMcap > m)) = true
          · simp only [h3, if_true]
            exact Or.inl ⟨_, rfl⟩
          · simp only [Bool.not_eq_true] at h3
            simp only [h3, Bool.false_eq_true, if_false]
            by_cases h4 : (alookup eng.states e.mint).isSome = true
            · simp only [h4, if_true]
              exact Or.inl ⟨_, rfl⟩
            · simp only [Bool.not_eq_true] at h4
              simp only [h4, Bool.false_eq_true, if_false]
              by_cases hdw : sTruthy e.devWallet = true
              · simp only [hdw, if_true]
                by_cases hr : S.config.enable_tax_bundler_filter = some false
                · simp only [hr, if_true]
                  refine Or.inr ⟨_, _, _, ?_, rfl⟩
                  rfl
                · simp only [hr, if_false]
                  refine Or.inr ⟨_, _, _, ?_, rfl⟩
                  rfl
              · simp only [Bool.not_eq_true] at hdw
                simp only [hdw, Bool.false_eq_true, if_false]
                by_cases hr : S.config.enable_tax_bundler_filter = some false
                · simp only [hr, if_true]
                  refine Or.inr ⟨_, _, _, ?_, rfl⟩
                  rfl
                · simp only [hr, if_false]
                  refine Or.inr ⟨_, _, _, ?_, rfl⟩
                  rfl
  · simp only [Bool.not_eq_true] at hb
    simp only [hb, Bool.false_eq_true, if_false]
    by_cases hsk : sameTickerSkip S eng e = true
    · simp only [hsk, if_true]
      exact Or.inl ⟨eng.devLastTicker, rfl⟩
    · simp only [Bool.not_eq_true] at hsk
      simp only [hsk, Bool.false_eq_true, if_false]
      by_cases h1 : now - e.createdAt > S.config.token_max_age.getD 600
      · simp only [h1, if_true]
        exact Or.inl ⟨eng.devLastTicker, rfl⟩
      · simp only [h1, if_false]
        by_cases h2 : e.initialMcap < S.config.min_initial_mcap.getD 0
        · simp only [h2, if_true]
          exact Or.inl ⟨eng.devLastTicker, rfl⟩
        · simp only [h2, if_false]
          by_cases h3 : (match S.config.max_initial_liquidity_sol with
                         | none => false
                         | some m => decide (e.initialMcap > m)) = true
          · simp only [h3, if_true]
            exact Or.inl ⟨eng.devLastTicker, rfl⟩
          · simp only [Bool.not_eq_true] at h3
            simp only [h3, Bool.false_eq_true, if_false]
            by_cases h4 : (alookup eng.states e.mint).isSome = true
            · simp only [h4, if_true]
              exact Or.inl ⟨eng.devLastTicker, rfl⟩
            · simp only [Bool.not_eq_true] at h4
              simp only [h4, Bool.false_eq_true, if_false]
              by_cases hdw : sTruthy e.devWallet = true
              · simp only [hdw, if_true]
                by_cases hr : S.config.enable_tax_bundler_filter = some false
                · simp only [hr, if_true]
                  refine Or.inr ⟨_, _, _, ?_, rfl⟩
                  rfl
                · simp only [hr, if_false]
                  refine Or.inr ⟨_, _, _, ?_, rfl⟩
                  rfl
              · simp only [Bool.not_eq_true] at hdw
                simp only [hdw, Bool.false_eq_true, if_false]
                by_cases hr : S.config.enable_tax_bundler_filter = some false
                · simp only [hr, if_true]
                  refine Or.inr ⟨_, _, _, ?_, rfl⟩
                  rfl
                · simp only [hr, if_false]
                  refine Or.inr ⟨_, _, _, ?_, rfl⟩
                  rfl

lemma onPool_master (S : Strat) (now : ℚ) (e : PoolEvent) (eng : Eng) :
    (∀ m, m ≠ e.mint → alookup (onPool S now e eng).states m = alookup eng.states m) ∧
    (onPool S now e eng).investedSol = eng.investedSol ∧
    (Inv eng → Inv (onPool S now e eng)) := by
  rcases onPool_shape S now e eng with ⟨dlt, hE⟩ | ⟨dlt, dtc, v, hv, hE⟩
  · rw [hE]
    exact ⟨fun m hm => rfl, rfl, fun h => h⟩
  · rw [hE]
    exact ⟨fun m hm => alookup_aset_ne _ _ _ _ hm, rfl, fun h => Inv_set_states rfl rfl hv h⟩

/-- What a signal-free asynchronous completion may do: only its own mint's
entry changes, both tracked indicators can only fall, invested capital is
untouched and the accounting invariant is preserved. -/
def QuietOK (id : String) (eng eng' : Eng) : Prop :=
  (∀ m, m ≠ id → alookup eng'.states m = alookup eng.states m) ∧
  tNB eng'.states id ≤ tNB eng.states id ∧
  tI eng'.states id ≤ tI eng.states id ∧
  eng'.investedSol = eng.investedSol ∧
  (Inv eng → Inv eng')

lemma QuietOK_refl (id : String) (eng : Eng) : QuietOK id eng eng :=
  ⟨fun _ _ => rfl, le_refl _, le_refl _, rfl, fun h => h⟩

lemma QuietOK_stop (id : String) (eng : Eng) : QuietOK id eng (stopTracking id eng) := by
  refine ⟨fun m hm => alookup_aerase_ne _ _ _ hm, ?_, ?_, rfl, fun h => Inv_aerase id h⟩
  · have h0 : tNB (stopTracking id eng).states id = 0 := by
      simp [tNB, stopTracking, alookup_aerase_self]
    rw [h0]
    exact Nat.zero_le _
  · have h0 : tI (stopTracking id eng).states id = 0 := by
      simp [tI, stopTracking, alookup_aerase_self]
    rw [h0]
    exact Nat.zero_le _

lemma QuietOK_aset_same {id : String} {eng : Eng} {st st2 : TokenState}
    (hlk : alookup eng.states id = some st)
    (hpos : posSize st2 = posSize st) (hhb : st2.hasBought = st.hasBought) :
    QuietOK id eng { eng with states := aset eng.states id st2 } := by
  refine ⟨fun m hm => alookup_aset_ne _ _ _ _ hm, ?_, ?_, rfl,
    fun h => Inv_aset_samePos ⟨st, hlk, rfl, rfl⟩ hpos h⟩
  · have h1 : tNB (aset eng.states id st2) id = tNB eng.states id := by
      simp [tNB, alookup_aset_self, hlk, hhb]
    rw [h1]
  · have h1 : tI (aset eng.states id st2) id = tI eng.states id := by
      simp [tI, alookup_aset_self, hlk]
    rw [h1]

lemma QuietOK_trans_stop {id : String} {eng eng' : Eng}
    (h : QuietOK id eng eng') : QuietOK id eng (stopTracking id eng') := by
  obtain ⟨h1, h2, h3, h4, h5⟩ := h
  obtain ⟨g1, g2, g3, g4, g5⟩ := QuietOK_stop id eng'
  exact ⟨fun m hm => (g1 m hm).trans (h1 m hm), le_trans g2 h2, le_trans g3 h3,
    g4.trans h4, fun h => g5 (h5 h)⟩

lemma onRiskFail_quiet (id : String) (eng : Eng) :
    QuietOK id eng (onRiskFail id eng) := by
  unfold onRiskFail
  cases hlk : alookup eng.states id with
  | none => exact QuietOK_refl id eng
  | some st => exact QuietOK_aset_same hlk rfl rfl

lemma onDevExited_quiet (id : String) (eng : Eng) :
    QuietOK id eng (onDevExited id eng) := by
  unfold onDevExited
  cases hlk : alookup eng.states id with
  | none => exact QuietOK_refl id eng
  | some st => exact QuietOK_aset_same hlk rfl rfl

lemma onNoBuyTimeout_quiet (id : String) (eng : Eng) :
    QuietOK id eng (onNoBuyTimeout id eng) := by
  unfold onNoBuyTimeout
  cases hlk : alookup eng.states id with
  | none => exact QuietOK_refl id eng
  | some st =>
    dsimp only
    split_ifs
    · exact QuietOK_stop id eng
    · exact QuietOK_refl id eng

lemma onRiskOk_quiet (S : Strat) (id : String) (feeBps : Option ℚ) (bundler : Bool)
    (eng : Eng) : QuietOK id eng (onRiskOk S id feeBps bundler eng) := by
  unfold onRiskOk
  cases hlk : alookup eng.states id with
  | none => exact QuietOK_refl id eng
  | some st =>
    cases feeBps with
    | none =>
      dsimp only
      split_ifs
      · exact QuietOK_trans_stop (QuietOK_aset_same hlk rfl rfl)
      · exact QuietOK_aset_same hlk rfl rfl
    | some f =>
      dsimp only
      split_ifs
      · exact QuietOK_trans_stop (QuietOK_aset_same hlk rfl rfl)
      · exact QuietOK_aset_same hlk rfl rfl

lemma buyCount_zero_of_mints {l : List TradeSignal} {id m : String}
    (h : ∀ sig ∈ l, sig.mint = id) (hm : m ≠ id) : buyCount l m = 0 := by
  unfold buyCount
  rw [List.countP_eq_zero]
  intro sig hsig
  simp only [decide_eq_true_eq, not_and]
  intro hmint
  exact absurd (hmint ▸ h sig hsig) hm

lemma sellCount_zero_of_mints {l : List TradeSignal} {id m : String}
    (h : ∀ sig ∈ l, sig.mint = id) (hm : m ≠ id) : sellCount l m = 0 := by
  unfold sellCount
  rw [List.countP_eq_zero]
  intro sig hsig
  simp only [decide_eq_true_eq, not_and]
  intro hmint
  exact absurd (hmint ▸ h sig hsig) hm

lemma tNB_congr {m1 m2 : List (String × TokenState)} {id : String}
    (h : alookup m1 id = alookup m2 id) : tNB m1 id = tNB m2 id := by
  unfold tNB
  rw [h]

lemma tI_congr {m1 m2 : List (String × TokenState)} {id : String}
    (h : alookup m1 id = alookup m2 id) : tI m1 id = tI m2 id := by
  unfold tI
  rw [h]

/-- Per-event bookkeeping: one step can raise the buy budget only through a
pool event for the very mint, signals respect the episode bounds, any SELL
untracks its mint, and the accounting invariant survives. -/
lemma step_master (S : Strat) (ev : Event) (eng : Eng) (m : String)
    (htsz : 0 ≤ S.config.trade_size_sol.getD (1 / 2)) :
    buyCount (step S ev eng).2.1 m + tNB (step S ev eng).1.states m ≤
      poolFor ev m + tNB eng.states m ∧
    sellCount (step S ev eng).2.1 m + tI (step S ev eng).1.states m ≤
      poolFor ev m + tI eng.states m ∧
    (1 ≤ sellCount (step S ev eng).2.1 m → alookup (step S ev eng).1.states m = none) ∧
    (Inv eng → Inv (step S ev eng).1) := by
  cases ev with
  | pool now e =>
    obtain ⟨hpres, hinv, hInv⟩ := onPool_master S now e eng
    simp only [step, poolFor]
    by_cases hm : e.mint = m
    · subst hm
      rw [if_pos rfl]
      simp only [buyCount, sellCount, List.countP_nil]
      refine ⟨?_, ?_, ?_, hInv⟩
      · have := tNB_le_one (onPool S now e eng).states e.mint
        omega
      · have := tI_le_one (onPool S now e eng).states e.mint
        omega
      · intro h
        omega
    · have hm2 : m ≠ e.mint := fun hc => hm hc.symm
      have hcng := hpres m hm2
      simp only [if_neg hm, buyCount, sellCount, List.countP_nil,
        tNB_congr hcng, tI_congr hcng]
      exact ⟨by omega, by omega, fun h => by omega, hInv⟩
  | price now mint p v lq w sd tc =>
    obtain ⟨h1, h2, h3, h4, h5, h6⟩ := onPrice_master S now mint p v lq w sd tc eng
    simp only [step, poolFor]
    by_cases hm : m = mint
    · subst hm
      exact ⟨by omega, by omega, h5, h6 htsz⟩
    · have hcng := h1 m hm
      rw [buyCount_zero_of_mints h2 hm, sellCount_zero_of_mints h2 hm,
        tNB_congr hcng, tI_congr hcng]
      exact ⟨by omega, by omega, fun h => by omega, h6 htsz⟩
  | riskOk id feeBps bundler =>
    obtain ⟨h1, h2, h3, h4, h5⟩ := onRiskOk_quiet S id feeBps bundler eng
    simp only [step, poolFor, buyCount, sellCount, List.countP_nil]
    by_cases hm : m = id
    · subst hm
      exact ⟨by omega, by omega, fun h => by omega, h5⟩
    · have hcng := h1 m hm
      rw [tNB_congr hcng, tI_congr hcng]
      exact ⟨by omega, by omega, fun h => by omega, h5⟩
  | riskFail id =>
    obtain ⟨h1, h2, h3, h4, h5⟩ := onRiskFail_quiet id eng
    simp only [step, poolFor, buyCount, sellCount, List.countP_nil]
    by_cases hm : m = id
    · subst hm
      exact ⟨by omega, by omega, fun h => by omega, h5⟩
    · have hcng := h1 m hm
      rw [tNB_congr hcng, tI_congr hcng]
      exact ⟨by omega, by omega, fun h => by omega, h5⟩
  | devExited id =>
    obtain ⟨h1, h2, h3, h4, h5⟩ := onDevExited_quiet id eng
    simp only [step, poolFor, buyCount, sellCount, List.countP_nil]
    by_cases hm : m = id
    · subst hm
      exact ⟨by omega, by omega, fun h => by omega, h5⟩
    · have hcng := h1 m hm
      rw [tNB_congr hcng, tI_congr hcng]
      exact ⟨by omega, by omega, fun h => by omega, h5⟩
  | noBuyTimeout id =>
    obtain ⟨h1, h2, h3, h4, h5⟩ := onNoBuyTimeout_quiet id eng
    simp only [step, poolFor, buyCount, sellCount, List.countP_nil]
    by_cases hm : m = id
    · subst hm
      exact ⟨by omega, by omega, fun h => by omega, h5⟩
    · have hcng := h1 m hm
      rw [tNB_congr hcng, tI_congr hcng]
      exact ⟨by omega, by omega, fun h => by omega, h5⟩

lemma poolCount_cons (ev : Event) (evs : List Event) (m : String) :
    poolCount (ev :: evs) m = poolFor ev m + poolCount evs m := by
  cases ev with
  | pool now e =>
    simp only [poolCount, poolFor, List.countP_cons]
    by_cases hm : e.mint = m
    · simp [hm, Nat.add_comm]
    · simp [hm]
  | price now mint p v lq w sd tc => simp [poolCount, poolFor, List.countP_cons]
  | riskOk id f b => simp [poolCount, poolFor, List.countP_cons]
  | riskFail id => simp [poolCount, poolFor, List.countP_cons]
  | devExited id => simp [poolCount, poolFor, List.countP_cons]
  | noBuyTimeout id => simp [poolCount, poolFor, List.countP_cons]

lemma run_cons_eng (S : Strat) (ev : Event) (rest : List Event) (eng : Eng) :
    (run S (ev :: rest) eng).1 = (run S rest (step S ev eng).1).1 := rfl

lemma run_cons_sigs (S : Strat) (ev : Event) (rest : List Event) (eng : Eng) :
    (run S (ev :: rest) eng).2.1 =
      (step S ev eng).2.1 ++ (run S rest (step S ev eng).1).2.1 := rfl

/-- Run-level bookkeeping: BUY and SELL counts for a mint are budgeted by
the number of pool events for it plus the tracking indicators of the start
state, and the accounting invariant is preserved along the whole run. -/
lemma run_master (S : Strat) (evs : List Event) (eng : Eng) (m : String)
    (htsz : 0 ≤ S.config.trade_size_sol.getD (1 / 2)) :
    buyCount (run S evs eng).2.1 m + tNB (run S evs eng).1.states m ≤
      poolCount evs m + tNB eng.states m ∧
    sellCount (run S evs eng).2.1 m + tI (run S evs eng).1.states m ≤
      poolCount evs m + tI eng.states m ∧
    (Inv eng → Inv (run S evs eng).1) := by
  induction evs generalizing eng with
  | nil =>
    refine ⟨?_, ?_, fun h => h⟩ <;>
      simp [run, buyCount, sellCount, List.countP_nil, poolCount]
  | cons ev rest ih =>
    obtain ⟨s1, s2, s3, s4⟩ := step_master S ev eng m htsz
    obtain ⟨r1, r2, r3⟩ := ih (step S ev eng).1
    refine ⟨?_, ?_, ?_⟩
    · rw [run_cons_sigs, run_cons_eng, buyCount_append, poolCount_cons]
      omega
    · rw [run_cons_sigs, run_cons_eng, sellCount_append, poolCount_cons]
      omega
    · rw [run_cons_eng]
      exact fun h => r3 (s4 h)

/-- C1 (amended): within a single tracking episode — at most one admitting
pool event for the mint in the whole sequence — at most one BUY and at most
one SELL signal are emitted for that mint over any sequence of engine
events starting from the fresh engine, and any single step that emits a
SELL for a mint leaves the states map without that mint. -/
theorem C1_episode_invariant (S : Strat) (evs : List Event) (m : String)
    (htsz : 0 ≤ S.config.trade_size_sol.getD (1 / 2))
    (hpool : poolCount evs m ≤ 1) :
    buyCount (run S evs mkEng).2.1 m ≤ 1 ∧
    sellCount (run S evs mkEng).2.1 m ≤ 1 ∧
    ∀ ev (eng : Eng), 1 ≤ sellCount (step S ev eng).2.1 m →
      alookup (step S ev eng).1.states m = none := by
  obtain ⟨r1, r2, _⟩ := run_master S evs mkEng m htsz
  have h0 : tNB mkEng.states m = 0 := rfl
  have h1 : tI mkEng.states m = 0 := rfl
  exact ⟨by omega, by omega, fun ev eng h => (step_master S ev eng m htsz).2.2.1 h⟩

/-- One admission episode: pool event, a low price, then a high price that
fires the heuristic BUY. -/
def evsC2 : List Event :=
  [Event.pool 10 pool0,
   Event.price 11 "M" 1 none none none none none,
   Event.price 12 "M" 3 none none none none none]

/-- The tracked state left by the BUY of evsC2. -/
def stC2 : TokenState := (alookup (run strat0 evsC2 mkEng).1.states "M").getD {}

set_option maxRecDepth 3000 in
theorem C1_witness :
    0 ≤ strat0.config.trade_size_sol.getD (1 / 2) ∧ poolCount evsC2 "M" ≤ 1 ∧
    (buyCount (run strat0 evsC2 mkEng).2.1 "M" ≤ 1 ∧
     sellCount (run strat0 evsC2 mkEng).2.1 "M" ≤ 1 ∧
     ∀ ev (eng : Eng), 1 ≤ sellCount (step strat0 ev eng).2.1 "M" →
       alookup (step strat0 ev eng).1.states "M" = none) :=
  ⟨by with_unfolding_all decide, by with_unfolding_all decide,
   C1_episode_invariant strat0 evsC2 "M" (by with_unfolding_all decide)
     (by with_unfolding_all decide)⟩

/-- C2: for a settlement of a tracked token of a reachable engine state
whose entryPrice and entrySol are truthy, settlePosition adds exactly
entrySol * (exitPrice - entryPrice)/entryPrice to profitSol and subtracts
exactly entrySol from investedSol (the max-with-0 clamp never bites because
investedSol covers the sum of open positions), and investedSol is
non-negative before and after. -/
theorem C2_settlement_accounting (S : Strat) (evs : List Event) (m : String) (eng : Eng)
    (htsz : 0 ≤ S.config.trade_size_sol.getD (1 / 2))
    (heng : eng = (run S evs mkEng).1)
    (st : TokenState) (p : ℚ)
    (hlk : alookup eng.states m = some st)
    (hset : qTruthy st.entryPrice = true) (hsol : qTruthy st.entrySol = true) :
    0 ≤ eng.investedSol ∧
    (settlePosition st p eng).1.profitSol =
      eng.profitSol + st.entrySol.getD 0 * (p - st.entryPrice.getD 0) / st.entryPrice.getD 0 ∧
    (settlePosition st p eng).1.investedSol = eng.investedSol - st.entrySol.getD 0 ∧
    0 ≤ (settlePosition st p eng).1.investedSol := by
  have hInv0 : Inv mkEng :=
    ⟨fun q hq => absurd hq (List.not_mem_nil q), by norm_num [sumPos, mkEng]⟩
  have hInv : Inv eng := heng ▸ (run_master S evs mkEng m htsz).2.2 hInv0
  have hcond : (qTruthy st.entryPrice && qTruthy st.entrySol) = true := by
    rw [hset, hsol]
    rfl
  have hps : posSize st = st.entrySol.getD 0 := by
    unfold posSize
    rw [if_pos hcond]
  have hle : posSize st ≤ sumPos eng.states := alookup_posSize_le_sum hInv.1 hlk
  have hsum0 : 0 ≤ sumPos eng.states := sumPos_nonneg hInv.1
  have hinv0 : 0 ≤ eng.investedSol := le_trans hsum0 hInv.2
  have hsle : st.entrySol.getD 0 ≤ eng.investedSol := by
    rw [← hps]
    exact le_trans hle hInv.2
  unfold settlePosition
  rw [if_pos hcond]
  dsimp only
  refine ⟨hinv0, rfl, max_eq_right (by linarith), le_max_left _ _⟩

set_option maxRecDepth 3000 in
theorem C2_witness :
    qTruthy stC2.entryPrice = true ∧ qTruthy stC2.entrySol = true ∧
    (0 ≤ (run strat0 evsC2 mkEng).1.investedSol ∧
     (settlePosition stC2 4 (run strat0 evsC2 mkEng).1).1.profitSol =
       (run strat0 evsC2 mkEng).1.profitSol +
         stC2.entrySol.getD 0 * (4 - stC2.entryPrice.getD 0) / stC2.entryPrice.getD 0 ∧
     (settlePosition stC2 4 (run strat0 evsC2 mkEng).1).1.investedSol =
       (run strat0 evsC2 mkEng).1.investedSol - stC2.entrySol.getD 0 ∧
     0 ≤ (settlePosition stC2 4 (run strat0 evsC2 mkEng).1).1.investedSol) :=
  ⟨by with_unfolding_all decide, by with_unfolding_all decide,
   C2_settlement_accounting strat0 evsC2 "M" _ (by with_unfolding_all decide) rfl stC2 4
     (by with_unfolding_all rfl) (by with_unfolding_all decide)
     (by with_unfolding_all decide)⟩

end Sniper
